import Mathlib

/-!
Health prober (`pkg/health/server/prober.go`).

A shallow embedding of the prober of the health server: the result store
(`results`), the registry (`nodes`), the membership update `setNodes`, the
echo completion handler installed by `newProber` (`OnRecv`) and the
aggregation `getResults`.

Conventions of the embedding.

* A Go pointer that the code tests against `nil` or that may be absent is an
  `Option`; dereferencing `none` is a panic, and a function that can panic
  returns `Option`, `none` standing for the panic.
* The addressing elements of a node are used as map keys through their
  pointers. Each element therefore carries its own address `ptr`: two
  pointers are the same pointer exactly when the elements they hold are
  equal, address included, and two different elements may have the same
  content.
* A Go map is an association list. `m[k]` is `mapGet`, `m[k] = v` is `mapSet`.
  The position of an entry in the list carries no meaning: whenever the code
  ranges over a map, the order of enumeration is chosen by a `RangeOrder`, an
  arbitrary permutation, because Go leaves the order of `range` unspecified.
* The standard library calls `net.ParseIP` and `net.ResolveIPAddr` and the
  embedded `fastping.Pinger` are outside the repository; they are taken as
  the parameter `Net` and the structure `Pinger` below.
* The reader/writer lock is not modelled: every operation is one atomic step.
-/

namespace Prober

/-! ## Go maps -/

/-- Map lookup `m[k]`; `none` is the zero value (`nil`) of a missing key. -/
def mapGet {K V : Type} [DecidableEq K] : List (K × V) → K → Option V
  | [], _ => none
  | (k1, v) :: t, k => if k1 = k then some v else mapGet t k

/-- Map assignment `m[k] = v`: replaces the entry of `k`, or adds one. -/
def mapSet {K V : Type} [DecidableEq K] : List (K × V) → K → V → List (K × V)
  | [], k, v => [(k, v)]
  | (k1, v1) :: t, k, v => if k1 = k then (k, v) :: t else (k1, v1) :: mapSet t k v

/-- Order in which one `range` statement enumerates the entries of a map:
any permutation of the entries. -/
structure RangeOrder (α : Type) where
  pick : List α → List α
  perm : ∀ l, (pick l).Perm l

/-- The enumeration that follows the list as written. -/
def RangeOrder.inOrder (α : Type) : RangeOrder α :=
  ⟨fun l => l, fun l => List.Perm.refl l⟩

/-- The enumeration that runs through the list backwards. -/
def RangeOrder.backwards (α : Type) : RangeOrder α :=
  ⟨fun l => l.reverse, fun l => List.reverse_perm l⟩

/-! ## Data model -/

/-- Type `ipString` of the source: an address in its string form. -/
abbrev ipString := String

/-- Modelled from the spec: `models.ConnectivityStatus`, whose declaration is
not part of the sources. `Latency` is the `int64` number of nanoseconds (zero
when absent), `Status` the human-readable message. -/
structure ConnectivityStatus where
  Latency : Int
  Status : String
deriving DecidableEq

/-- Modelled from the spec: `models.PathStatus`, one optional connectivity
status per path kind; the field names are those used by `copyResultRLocked`. -/
structure PathStatus where
  IP : String
  Icmp : Option ConnectivityStatus := none
  HTTP : Option ConnectivityStatus := none
  HTTPViaL7 : Option ConnectivityStatus := none
  HTTPViaService : Option ConnectivityStatus := none
  HTTPViaServiceL7 : Option ConnectivityStatus := none
deriving DecidableEq

/-- Modelled from the spec: `models.HostStatus` as `getResults` fills it. -/
structure HostStatus where
  PrimaryAddress : Option PathStatus
  SecondaryAddresses : List (Option PathStatus)
deriving DecidableEq

/-- Modelled from the spec: `models.NodeStatus` as `getResults` fills it; the
`Host` pointer is always set there. -/
structure NodeStatus where
  Name : String
  Host : HostStatus
deriving DecidableEq

/-- Modelled from the spec: `ciliumModels.NodeAddressingElement`, the fields
`IP` and `Enabled` read by the prober, and the address `ptr` at which the
element lives, which tells one element from another of the same content. -/
structure NodeAddressingElement where
  IP : String
  Enabled : Bool
  ptr : Nat
deriving DecidableEq

/-- Modelled from the spec: the primary addresses of a node; each is a pointer
in the source (`skipAddress` tests it against `nil`). -/
structure NodeAddressing where
  IPV4 : Option NodeAddressingElement
  IPV6 : Option NodeAddressingElement
deriving DecidableEq

/-- Modelled from the spec: `ciliumModels.NodeElement`, the fields read by the
prober. Secondary addresses are pointers to addressing elements. -/
structure NodeElement where
  Name : String
  PrimaryAddress : NodeAddressing
  SecondaryAddresses : List (Option NodeAddressingElement)
deriving DecidableEq

/-- Type `nodeMap` of the source: address string to node record. -/
abbrev nodeMap := List (ipString × NodeElement)

/-- A resolved `*net.IPAddr`, identified by its rendering `addr.String()`. -/
abbrev IPAddr := String

/-- Modelled from the spec: the address functions of the Go standard library
used by `setNodes`. `ParseIP ip` tells whether `net.ParseIP(ip)` is not nil;
`ResolveIPAddr network ip` is the address returned by `net.ResolveIPAddr`,
or `none` when it returns an error. Both are taken to be functions of their
arguments: the same string resolves the same way throughout. -/
structure Net where
  ParseIP : String → Bool
  ResolveIPAddr : String → String → Option IPAddr

/-- Modelled from the spec: the echo-probe transport (`fastping.Pinger`),
reduced to the addresses handed to it by `AddIPAddr`, oldest first. -/
structure Pinger where
  addrs : List IPAddr
deriving DecidableEq

/-- Register a resolved address with the transport. -/
def Pinger.AddIPAddr (pg : Pinger) (ra : IPAddr) : Pinger :=
  ⟨pg.addrs ++ [ra]⟩

/-- State of a `prober`: the embedded pinger, the result store and the
registry. The fields `server`, `stop` and `done` take no part in the
operations embedded here. -/
structure prober where
  Pinger : Pinger
  results : List (ipString × PathStatus)
  nodes : nodeMap
deriving DecidableEq

/-! ## Operations -/

/-- Copy of one slot, `if value != nil { *res = &*value }`. -/
def copySlot (value : Option ConnectivityStatus) : Option ConnectivityStatus :=
  match value with
  | none => none
  | some c => some c

/-- Function `copyResultRLocked`: a copy of the path status of `ip`. -/
def copyResultRLocked (p : prober) (ip : String) : Option PathStatus :=
  match mapGet p.results ip with
  | none => none
  | some status =>
    some { IP := ip
           Icmp := copySlot status.Icmp
           HTTP := copySlot status.HTTP
           HTTPViaL7 := copySlot status.HTTPViaL7
           HTTPViaService := copySlot status.HTTPViaService
           HTTPViaServiceL7 := copySlot status.HTTPViaServiceL7 }

/-- Function `getPrimaryIP`; panics when a pointer it reads is nil. -/
def getPrimaryIP (node : NodeElement) : Option String :=
  match node.PrimaryAddress.IPV4 with
  | none => none
  | some v4 =>
    if v4.Enabled then some v4.IP
    else match node.PrimaryAddress.IPV6 with
      | none => none
      | some v6 => some v6.IP

/-- Inner loop of `getResults` over the secondary addresses of a node:
`secondaryResults` after one more address; panics on a nil address. -/
def secondaryStep (p : prober) (secondaryResults : List (Option PathStatus))
    (addr : Option NodeAddressingElement) : Option (List (Option PathStatus)) :=
  match addr with
  | none => none
  | some a =>
    if a.Enabled then some (secondaryResults ++ [copyResultRLocked p a.IP])
    else some secondaryResults

/-- The `NodeStatus` that `getResults` builds for a node it has not seen yet. -/
def nodeStatus (p : prober) (node : NodeElement) : Option NodeStatus :=
  match getPrimaryIP node with
  | none => none
  | some primaryIP =>
    match node.SecondaryAddresses.foldlM (secondaryStep p) [] with
    | none => none
    | some secondaryResults =>
      some { Name := node.Name
             Host := { PrimaryAddress := copyResultRLocked p primaryIP
                       SecondaryAddresses := secondaryResults } }

/-- Body of the loop of `getResults` over the registry: `resultMap` after
the node has been visited. -/
def getResultsStep (p : prober) (resultMap : List (String × NodeStatus))
    (node : NodeElement) : Option (List (String × NodeStatus)) :=
  match mapGet resultMap node.Name with
  | some _ => some resultMap
  | none =>
    match nodeStatus p node with
    | none => none
    | some status => some (mapSet resultMap node.Name status)

/-- The map `resultMap` built by `getResults`, the registry being enumerated
in the order `ρn`. -/
def getResultsMap (p : prober) (ρn : RangeOrder (ipString × NodeElement)) :
    Option (List (String × NodeStatus)) :=
  (ρn.pick p.nodes).foldlM (fun m kv => getResultsStep p m kv.2) []

/-- Function `getResults`: `ρn` is the order of the loop over the registry,
`ρr` the order of the final loop over `resultMap`. -/
def getResults (p : prober) (ρn : RangeOrder (ipString × NodeElement))
    (ρr : RangeOrder (String × NodeStatus)) : Option (List NodeStatus) :=
  match getResultsMap p ρn with
  | none => none
  | some m => some ((ρr.pick m).map Prod.snd)

/-- Function `getNodes`. -/
def getNodes (p : prober) : nodeMap := p.nodes

/-- Function `isIPv4`. -/
def isIPv4 (env : Net) (ip : String) : Bool :=
  env.ParseIP ip && !(ip.data.contains ':')

/-- Function `skipAddress`. -/
def skipAddress (elem : Option NodeAddressingElement) : Bool :=
  match elem with
  | none => true
  | some e => !e.Enabled || e.IP == "<nil>"

/-- Function `getNodeAddresses`: the map from the address pointers of a node to
their "primary" tag; panics when a primary address pointer is nil. The keys
are pointers: the map literal enters the primary IPv4 pointer and then the
primary IPv6 pointer, each with its `Enabled` flag, and the loop assigns
`false` to every secondary pointer, so that slots holding the same pointer
share one entry, tagged by the last assignment. -/
def getNodeAddresses (node : NodeElement) :
    Option (List (Option NodeAddressingElement × Bool)) :=
  match node.PrimaryAddress.IPV4, node.PrimaryAddress.IPV6 with
  | some v4, some v6 =>
    let addresses : List (Option NodeAddressingElement × Bool) :=
      mapSet (mapSet [] (some v4) v4.Enabled) (some v6) v6.Enabled
    some (node.SecondaryAddresses.foldl (fun m elem => mapSet m elem false) addresses)
  | _, _ => none

/-- Assignment `p.results[ip].Icmp = c`; panics when `p.results[ip]` is nil. -/
def setIcmp (results : List (ipString × PathStatus)) (ip : ipString)
    (c : ConnectivityStatus) : Option (List (ipString × PathStatus)) :=
  match mapGet results ip with
  | none => none
  | some st => some (mapSet results ip { st with Icmp := some c })

/-- Body of the inner loop of `setNodes`, for one entry of
`getNodeAddresses(n)`. -/
def setNodesElem (env : Net) (p : prober)
    (entry : Option NodeAddressingElement × Bool) : Option prober :=
  if skipAddress entry.1 then some p
  else
    match entry.1 with
    | none => some p
    | some elem =>
      let network := if isIPv4 env elem.IP then "ip4:icmp" else "ip6:icmp"
      let (result, pinger) :=
        match env.ResolveIPAddr network elem.IP with
        | some ra => (ConnectivityStatus.mk 0 "Connection timed out", p.Pinger.AddIPAddr ra)
        | none => (ConnectivityStatus.mk 0 "Failed to resolve IP", p.Pinger)
      let ip : ipString := elem.IP
      let results :=
        match mapGet p.results ip with
        | none => mapSet p.results ip { IP := elem.IP }
        | some _ => p.results
      match setIcmp results ip result with
      | none => none
      | some results1 => some { p with Pinger := pinger, results := results1 }

/-- Body of the outer loop of `setNodes`, for one node of the registry. -/
def setNodesNode (env : Net) (ρa : RangeOrder (Option NodeAddressingElement × Bool))
    (p : prober) (n : NodeElement) : Option prober :=
  match getNodeAddresses n with
  | none => none
  | some addresses => (ρa.pick addresses).foldlM (setNodesElem env) p

/-- Function `setNodes`: `ρn` is the order of the loop over the nodes, `ρa`
the order of the loop over the addresses of a node. -/
def setNodes (env : Net) (ρn : RangeOrder (ipString × NodeElement))
    (ρa : RangeOrder (Option NodeAddressingElement × Bool))
    (p : prober) (nodes : nodeMap) : Option prober :=
  (ρn.pick nodes).foldlM (fun q kv => setNodesNode env ρa q kv.2) { p with nodes := nodes }

/-- The handler `OnRecv` installed by `newProber`, called with the rendering
`addr.String()` of the replying address and the round-trip time in
nanoseconds. -/
def OnRecv (p : prober) (addr : String) (rtt : Int) : Option prober :=
  match mapGet p.nodes addr with
  | none => some p
  | some _ =>
    match setIcmp p.results addr ⟨rtt, ""⟩ with
    | none => none
    | some results1 => some { p with results := results1 }

/-- Function `newProber`: a fresh pinger, an empty result store, then
`setNodes`. -/
def newProber (env : Net) (ρn : RangeOrder (ipString × NodeElement))
    (ρa : RangeOrder (Option NodeAddressingElement × Bool))
    (nodes : nodeMap) : Option prober :=
  setNodes env ρn ρa { Pinger := ⟨[]⟩, results := [], nodes := nodes } nodes

/-! ## Predicates used in the statements -/

/-- No pointer that `getResults` dereferences in the node is nil: the primary
IPv4 pointer, the primary IPv6 pointer when IPv4 is disabled, and every
secondary pointer. -/
def noNilDeref (node : NodeElement) : Bool :=
  (getPrimaryIP node).isSome && node.SecondaryAddresses.all Option.isSome

/-- The enabled secondary addresses of a node, in the order of its list. -/
def enabledSecondaries (node : NodeElement) : List NodeAddressingElement :=
  (node.SecondaryAddresses.filterMap id).filter (fun a => a.Enabled)

/-- The address elements of a node record: the primary IPv4 and IPv6 elements
and the secondary elements, nil pointers left out. -/
def nodeElems (node : NodeElement) : List NodeAddressingElement :=
  (node.PrimaryAddress.IPV4 :: node.PrimaryAddress.IPV6 :: node.SecondaryAddresses).filterMap id

/-- Outcome of the resolution that `setNodes` attempts for an address string:
`net.ResolveIPAddr` on the network that `isIPv4` selects. -/
def resolve (env : Net) (ip : String) : Option IPAddr :=
  env.ResolveIPAddr (if isIPv4 env ip then "ip4:icmp" else "ip6:icmp") ip

/-- The status that `setNodes` writes for an address string. -/
def provisional (env : Net) (ip : String) : ConnectivityStatus :=
  match resolve env ip with
  | some _ => ⟨0, "Connection timed out"⟩
  | none => ⟨0, "Failed to resolve IP"⟩

/-- The string `ip` is the address of an element of a node of `nodes` that
`skipAddress` does not skip. -/
def IsEnabledAddr (nodes : nodeMap) (ip : String) : Prop :=
  ∃ kv ∈ nodes, ∃ e ∈ nodeElems kv.2, skipAddress (some e) = false ∧ e.IP = ip

/-- Both primary address pointers of the node are set, so that
`getNodeAddresses` does not panic. -/
def primariesSet (node : NodeElement) : Bool :=
  node.PrimaryAddress.IPV4.isSome && node.PrimaryAddress.IPV6.isSome

/-- The string `ip` is one of the addresses that `setNodes` probes for the
node set: a non-skipped address whose resolution succeeds. -/
def IsProbedAddr (env : Net) (nodes : nodeMap) (ip : String) : Prop :=
  IsEnabledAddr nodes ip ∧ (resolve env ip).isSome = true

/-- The string `ra` renders an address that `setNodes` registers with the
transport for the node set: the resolution of a non-skipped address. These
are the addresses for which the transport delivers completions. -/
def IsRegisteredAddr (env : Net) (nodes : nodeMap) (ra : String) : Prop :=
  ∃ a, IsEnabledAddr nodes a ∧ resolve env a = some ra

/-- A round of completions delivered one after the other to `OnRecv`; each
completion is an address string with a round-trip time. -/
def deliver (p : prober) (completions : List (String × Int)) : Option prober :=
  completions.foldlM (fun q c => OnRecv q c.1 c.2) p

/-- States that a prober can be in: the one `newProber` returns, and those
reached from it by `setNodes` calls and by completions whose round-trip time
satisfies `okRtt`. -/
inductive Reachable (env : Net) (okRtt : Int → Prop) : prober → Prop where
  | init (ρn : RangeOrder (ipString × NodeElement))
      (ρa : RangeOrder (Option NodeAddressingElement × Bool)) (nodes : nodeMap) (p : prober) :
      newProber env ρn ρa nodes = some p → Reachable env okRtt p
  | setNodes (ρn : RangeOrder (ipString × NodeElement))
      (ρa : RangeOrder (Option NodeAddressingElement × Bool)) (nodes : nodeMap)
      (p p1 : prober) :
      Reachable env okRtt p → Prober.setNodes env ρn ρa p nodes = some p1 →
      Reachable env okRtt p1
  | recv (addr : String) (rtt : Int) (p p1 : prober) :
      Reachable env okRtt p → okRtt rtt → OnRecv p addr rtt = some p1 →
      Reachable env okRtt p1

/-- Exactly one of "latency present" (non-zero) and "status message
non-empty" holds of a connectivity status. -/
def exactlyOne (c : ConnectivityStatus) : Prop :=
  Xor' (c.Latency ≠ 0) (c.Status ≠ "")

/-- Every status stored in an `Icmp` slot of the result store satisfies
`exactlyOne`. -/
def icmpExactlyOne (p : prober) : Prop :=
  ∀ ip st c, mapGet p.results ip = some st → st.Icmp = some c → exactlyOne c

/-- One operation on the prober state: a membership update or a completion. -/
inductive Op where
  | setNodes (ρn : RangeOrder (ipString × NodeElement))
      (ρa : RangeOrder (Option NodeAddressingElement × Bool)) (nodes : nodeMap)
  | recv (addr : String) (rtt : Int)

/-- The state after an operation; `none` when the operation panics. -/
def Op.run (env : Net) (p : prober) : Op → Option prober
  | .setNodes ρn ρa nodes => Prober.setNodes env ρn ρa p nodes
  | .recv addr rtt => OnRecv p addr rtt

/-! ## Sample data -/

/-- A resolver that knows the two addresses 1.1.1.1 and 10.0.0.2. -/
def sampleNet : Net where
  ParseIP := fun s => s == "1.1.1.1" || s == "10.0.0.2"
  ResolveIPAddr := fun _ s => if s == "1.1.1.1" || s == "10.0.0.2" then some s else none

/-- A prober that has not been given any node yet. -/
def emptyProber : prober := { Pinger := ⟨[]⟩, results := [], nodes := [] }

/-- Node A: primary IPv4 1.1.1.1 enabled, IPv6 disabled, no secondaries. -/
def nodeA : NodeElement :=
  ⟨"A", ⟨some ⟨"1.1.1.1", true, 1⟩, some ⟨"<nil>", false, 2⟩⟩, []⟩

/-- Node B: its enabled primary IPv4 address is not an address. -/
def nodeB : NodeElement :=
  ⟨"B", ⟨some ⟨"not-an-ip", true, 3⟩, some ⟨"<nil>", false, 4⟩⟩, []⟩

/-- Node C: one enabled and one disabled secondary address. -/
def nodeC : NodeElement :=
  ⟨"C", ⟨some ⟨"1.1.1.1", true, 5⟩, some ⟨"<nil>", false, 6⟩⟩,
    [some ⟨"10.0.0.3", false, 7⟩, some ⟨"10.0.0.2", true, 8⟩]⟩

/-- Node D: an IPv6-only node, its primary IPv4 pointer is nil. -/
def nodeD : NodeElement :=
  ⟨"D", ⟨none, some ⟨"fd00::1", true, 9⟩⟩, []⟩

/-- A second record that carries the name of node A. -/
def nodeA2 : NodeElement :=
  ⟨"A", ⟨some ⟨"10.0.0.2", true, 10⟩, some ⟨"<nil>", false, 11⟩⟩, []⟩

/-- The state that `newProber` returns for the registry that holds node A
under its address. -/
def stateA : prober where
  Pinger := ⟨["1.1.1.1"]⟩
  results := [("1.1.1.1", { IP := "1.1.1.1", Icmp := some ⟨0, "Connection timed out"⟩ })]
  nodes := [("1.1.1.1", nodeA)]

/-- State `stateA` after the completion of 1.1.1.1 with a round-trip time of
`rtt` nanoseconds. -/
def stateARecv (rtt : Int) : prober where
  Pinger := ⟨["1.1.1.1"]⟩
  results := [("1.1.1.1", { IP := "1.1.1.1", Icmp := some ⟨rtt, ""⟩ })]
  nodes := [("1.1.1.1", nodeA)]

/-- A state whose registry maps two keys to records that share the name A. -/
def stateDup : prober where
  Pinger := ⟨["1.1.1.1", "10.0.0.2"]⟩
  results := [("1.1.1.1", { IP := "1.1.1.1", Icmp := some ⟨0, "Connection timed out"⟩ })]
  nodes := [("1.1.1.1", nodeA), ("10.0.0.2", nodeA2)]

/-- The state that `setNodes` returns from `stateA` for the registry that
holds node B. -/
def stateAB : prober where
  Pinger := ⟨["1.1.1.1"]⟩
  results := [("1.1.1.1", { IP := "1.1.1.1", Icmp := some ⟨0, "Connection timed out"⟩ }),
    ("not-an-ip", { IP := "not-an-ip", Icmp := some ⟨0, "Failed to resolve IP"⟩ })]
  nodes := [("not-an-ip", nodeB)]

/-- A state whose registry holds node C; the store has an entry for its
enabled secondary address only. -/
def stateC : prober where
  Pinger := ⟨[]⟩
  results := [("10.0.0.2", { IP := "10.0.0.2", Icmp := some ⟨7, ""⟩ })]
  nodes := [("1.1.1.1", nodeC)]

/-- The status that `getResults` reports for node C in `stateC`. -/
def statusC : NodeStatus where
  Name := "C"
  Host := { PrimaryAddress := none
            SecondaryAddresses := [some { IP := "10.0.0.2", Icmp := some ⟨7, ""⟩ }] }


/-! ## Further predicates and sample data -/

/-- The four slots of a path status other than `Icmp`. -/
def otherSlots (st : PathStatus) :
    Option ConnectivityStatus × Option ConnectivityStatus ×
      Option ConnectivityStatus × Option ConnectivityStatus :=
  (st.HTTP, st.HTTPViaL7, st.HTTPViaService, st.HTTPViaServiceL7)

/-- Records of the registry that share a name are the same record. -/
def namesDetermineRecords (nodes : nodeMap) : Prop :=
  ∀ kv ∈ nodes, ∀ kv2 ∈ nodes, kv.2.Name = kv2.2.Name → kv.2 = kv2.2

/-- The status that `getResults` reports for the name A in `stateDup` when the
record of node A is enumerated first. -/
def statusDupFirst : NodeStatus where
  Name := "A"
  Host := { PrimaryAddress :=
              some { IP := "1.1.1.1", Icmp := some ⟨0, "Connection timed out"⟩ }
            SecondaryAddresses := [] }

/-- The status that `getResults` reports for the name A in `stateDup` when the
second record of that name is enumerated first. -/
def statusDupSecond : NodeStatus where
  Name := "A"
  Host := { PrimaryAddress := none, SecondaryAddresses := [] }

/-- A state whose registry holds the nodes A and B under their addresses. -/
def stateTwo : prober where
  Pinger := ⟨["1.1.1.1"]⟩
  results := [("1.1.1.1", { IP := "1.1.1.1", Icmp := some ⟨2000000, ""⟩ }),
    ("not-an-ip", { IP := "not-an-ip", Icmp := some ⟨0, "Failed to resolve IP"⟩ })]
  nodes := [("1.1.1.1", nodeA), ("not-an-ip", nodeB)]

/-- The snapshot of `stateTwo`, node A first. -/
def snapshotTwo : List NodeStatus :=
  [ { Name := "A"
      Host := { PrimaryAddress := some { IP := "1.1.1.1", Icmp := some ⟨2000000, ""⟩ }
                SecondaryAddresses := [] } },
    { Name := "B"
      Host := { PrimaryAddress :=
                  some { IP := "not-an-ip", Icmp := some ⟨0, "Failed to resolve IP"⟩ }
                SecondaryAddresses := [] } } ]

/-- A resolver that, like `net.ResolveIPAddr`, renders the IPv6 address written
`0:0:0:0:0:0:0:1` in its short form `::1`. -/
def sampleNet6 : Net where
  ParseIP := fun s => s == "1.1.1.1" || s == "0:0:0:0:0:0:0:1" || s == "::1"
  ResolveIPAddr := fun _ s =>
    if s == "1.1.1.1" then some "1.1.1.1"
    else if s == "0:0:0:0:0:0:0:1" || s == "::1" then some "::1" else none

/-- Node E: its primary IPv6 address `::1` is disabled, and its enabled
secondary address is the same address written in the long form. -/
def nodeE : NodeElement :=
  ⟨"E", ⟨some ⟨"1.1.1.1", true, 12⟩, some ⟨"::1", false, 13⟩⟩,
    [some ⟨"0:0:0:0:0:0:0:1", true, 14⟩]⟩

/-- The registry that holds node E under each of its three address strings. -/
def registryE : nodeMap :=
  [("1.1.1.1", nodeE), ("::1", nodeE), ("0:0:0:0:0:0:0:1", nodeE)]

/-- The state that `newProber` returns, with `sampleNet6`, for `registryE`:
the node is visited once per key, and each visit registers its two enabled
addresses. -/
def stateE : prober where
  Pinger := ⟨["1.1.1.1", "::1", "1.1.1.1", "::1", "1.1.1.1", "::1"]⟩
  results := [("1.1.1.1", { IP := "1.1.1.1", Icmp := some ⟨0, "Connection timed out"⟩ }),
    ("0:0:0:0:0:0:0:1",
      { IP := "0:0:0:0:0:0:0:1", Icmp := some ⟨0, "Connection timed out"⟩ })]
  nodes := registryE

/-- Node G: its secondary slot holds the very pointer of its primary IPv4
address. -/
def nodeG : NodeElement :=
  ⟨"G", ⟨some ⟨"1.1.1.1", true, 17⟩, some ⟨"<nil>", false, 18⟩⟩,
    [some ⟨"1.1.1.1", true, 17⟩]⟩

/-- Node H: its secondary slot holds another element with the content of its
primary IPv4 address. -/
def nodeH : NodeElement :=
  ⟨"H", ⟨some ⟨"1.1.1.1", true, 19⟩, some ⟨"<nil>", false, 20⟩⟩,
    [some ⟨"1.1.1.1", true, 21⟩]⟩

/-- Node L: its enabled primary IPv6 address is written in the long form. -/
def nodeL : NodeElement :=
  ⟨"L", ⟨some ⟨"1.1.1.1", true, 22⟩, some ⟨"0:0:0:0:0:0:0:1", true, 23⟩⟩, []⟩

/-- The registry that holds node L under each of its two address strings. -/
def registryL : nodeMap :=
  [("1.1.1.1", nodeL), ("0:0:0:0:0:0:0:1", nodeL)]

/-- Node F: both primary addresses are disabled. -/
def nodeF : NodeElement :=
  ⟨"F", ⟨some ⟨"10.0.0.2", false, 15⟩, some ⟨"fd00::1", false, 16⟩⟩, []⟩

/-- A state whose registry holds node F; the store has an entry for each of
its primary addresses. -/
def stateF : prober where
  Pinger := ⟨[]⟩
  results := [("10.0.0.2", { IP := "10.0.0.2", Icmp := some ⟨7, ""⟩ }),
    ("fd00::1", { IP := "fd00::1", Icmp := some ⟨9, ""⟩ })]
  nodes := [("10.0.0.2", nodeF)]

/-- The status that `getResults` reports for node F in `stateF`. -/
def statusF : NodeStatus where
  Name := "F"
  Host := { PrimaryAddress := some { IP := "fd00::1", Icmp := some ⟨9, ""⟩ }
            SecondaryAddresses := [] }

/-! ## Lemmas on maps -/

theorem mapGet_mapSet {K V : Type} [DecidableEq K] (m : List (K × V)) (k k2 : K) (v : V) :
    mapGet (mapSet m k v) k2 = if k = k2 then some v else mapGet m k2 := by
  induction m with
  | nil => simp [mapSet, mapGet]
  | cons e t ih =>
    obtain ⟨k1, v1⟩ := e
    by_cases h1 : k1 = k
    · subst h1
      by_cases h2 : k1 = k2 <;> simp [mapSet, mapGet, h2]
    · by_cases h2 : k1 = k2
      · subst h2
        simp [mapSet, mapGet, h1, Ne.symm h1]
      · simp [mapSet, mapGet, h1, h2, ih]

theorem mapGet_eq_none_iff {K V : Type} [DecidableEq K] (m : List (K × V)) (k : K) :
    mapGet m k = none ↔ k ∉ m.map Prod.fst := by
  induction m with
  | nil => simp [mapGet]
  | cons e t ih =>
    obtain ⟨k1, v1⟩ := e
    by_cases h1 : k1 = k
    · simp [mapGet, h1]
    · simp [mapGet, h1, ih, Ne.symm h1]

theorem mapSet_of_none {K V : Type} [DecidableEq K] (m : List (K × V)) (k : K) (v : V)
    (h : mapGet m k = none) : mapSet m k v = m ++ [(k, v)] := by
  induction m with
  | nil => simp [mapSet]
  | cons e t ih =>
    obtain ⟨k1, v1⟩ := e
    by_cases h1 : k1 = k
    · simp [mapGet, h1] at h
    · simp [mapGet, h1] at h
      simp [mapSet, h1, ih h]

theorem mapGet_mem {K V : Type} [DecidableEq K] (m : List (K × V)) (k : K) (v : V)
    (h : mapGet m k = some v) : (k, v) ∈ m := by
  induction m with
  | nil => simp [mapGet] at h
  | cons e t ih =>
    obtain ⟨k1, v1⟩ := e
    by_cases h1 : k1 = k
    · simp [mapGet, h1] at h
      simp [h1, h]
    · simp [mapGet, h1] at h
      simp [ih h]

theorem mapSet_keys {K V : Type} [DecidableEq K] (m : List (K × V)) (k k2 : K) (v : V) :
    k2 ∈ (mapSet m k v).map Prod.fst ↔ k2 = k ∨ k2 ∈ m.map Prod.fst := by
  induction m with
  | nil => simp [mapSet]
  | cons e t ih =>
    obtain ⟨k1, v1⟩ := e
    by_cases h1 : k1 = k
    · subst h1
      simp [mapSet]
    · simp only [mapSet, h1, if_false, List.map_cons, List.mem_cons, ih]
      tauto

theorem mapSet_nodup {K V : Type} [DecidableEq K] (m : List (K × V)) (k : K) (v : V)
    (h : (m.map Prod.fst).Nodup) : ((mapSet m k v).map Prod.fst).Nodup := by
  induction m with
  | nil => simp [mapSet]
  | cons e t ih =>
    obtain ⟨k1, v1⟩ := e
    rw [List.map_cons, List.nodup_cons] at h
    by_cases h1 : k1 = k
    · subst h1
      simp only [mapSet, if_true, List.map_cons, List.nodup_cons]
      exact h
    · simp only [mapSet, h1, if_false, List.map_cons, List.nodup_cons]
      refine ⟨?_, ih h.2⟩
      rw [mapSet_keys]
      rintro (h2 | h2)
      · exact h1 h2
      · exact h.1 h2

theorem foldl_mapSet_keys {K V : Type} [DecidableEq K] (l : List K) (v : V)
    (m : List (K × V)) (k : K) :
    k ∈ (l.foldl (fun r key => mapSet r key v) m).map Prod.fst ↔
      k ∈ m.map Prod.fst ∨ k ∈ l := by
  induction l generalizing m with
  | nil => simp
  | cons a t ih =>
    rw [List.foldl_cons, ih, mapSet_keys, List.mem_cons]
    tauto

theorem foldl_mapSet_nodup {K V : Type} [DecidableEq K] (l : List K) (v : V)
    (m : List (K × V)) (h : (m.map Prod.fst).Nodup) :
    ((l.foldl (fun r key => mapSet r key v) m).map Prod.fst).Nodup := by
  induction l generalizing m with
  | nil => exact h
  | cons a t ih =>
    rw [List.foldl_cons]
    exact ih _ (mapSet_nodup m a v h)

theorem foldl_mapSet_get {K V : Type} [DecidableEq K] (l : List K) (v : V)
    (m : List (K × V)) (k : K) :
    mapGet (l.foldl (fun r key => mapSet r key v) m) k =
      if k ∈ l then some v else mapGet m k := by
  induction l generalizing m with
  | nil => simp
  | cons a t ih =>
    rw [List.foldl_cons, ih, mapGet_mapSet]
    by_cases h1 : k ∈ t
    · simp [h1]
    · by_cases h2 : a = k
      · simp [h2]
      · simp [h1, h2, Ne.symm h2]

/-! ## Aggregation: `getResults` -/

theorem secondaryStep_fold (p : prober) (l : List (Option NodeAddressingElement))
    (acc r : List (Option PathStatus)) (h : l.foldlM (secondaryStep p) acc = some r) :
    (∀ s ∈ l, s ≠ none) ∧
      r = acc ++ ((l.filterMap id).filter (fun a => a.Enabled)).map
        (fun a => copyResultRLocked p a.IP) := by
  induction l generalizing acc with
  | nil => simp at h; simp [h]
  | cons s t ih =>
    cases s with
    | none => simp [secondaryStep] at h
    | some a =>
      by_cases ha : a.Enabled
      · simp [secondaryStep, ha] at h
        obtain ⟨h1, h2⟩ := ih _ h
        refine ⟨by simpa using h1, ?_⟩
        simp [h2, ha]
      · simp [secondaryStep, ha] at h
        obtain ⟨h1, h2⟩ := ih _ h
        refine ⟨by simpa using h1, ?_⟩
        simp [h2, ha]

theorem secondaryStep_fold_some (p : prober) (l : List (Option NodeAddressingElement))
    (acc : List (Option PathStatus)) (h : l.all Option.isSome = true) :
    ∃ r, l.foldlM (secondaryStep p) acc = some r := by
  induction l generalizing acc with
  | nil => exact ⟨acc, by simp⟩
  | cons s t ih =>
    cases s with
    | none => simp at h
    | some a =>
      simp at h
      by_cases ha : a.Enabled
      · simpa [secondaryStep, ha] using ih _ (by simpa using h)
      · simpa [secondaryStep, ha] using ih _ (by simpa using h)

theorem nodeStatus_some (p : prober) (node : NodeElement) (h : noNilDeref node = true) :
    ∃ st, nodeStatus p node = some st := by
  simp only [noNilDeref, Bool.and_eq_true] at h
  obtain ⟨h1, h2⟩ := h
  obtain ⟨ip, hip⟩ := Option.isSome_iff_exists.mp h1
  obtain ⟨r, hr⟩ := secondaryStep_fold_some p node.SecondaryAddresses [] h2
  simp [nodeStatus, hip, hr]

theorem nodeStatus_name (p : prober) (node : NodeElement) (st : NodeStatus)
    (h : nodeStatus p node = some st) : st.Name = node.Name := by
  unfold nodeStatus at h
  split at h
  · simp at h
  · split at h
    · simp at h
    · simp at h
      simp [← h]

theorem nodeStatus_secondary (p : prober) (node : NodeElement) (st : NodeStatus)
    (h : nodeStatus p node = some st) :
    st.Host.SecondaryAddresses =
      (enabledSecondaries node).map (fun a => copyResultRLocked p a.IP) := by
  unfold nodeStatus at h
  split at h
  · simp at h
  · split at h
    · simp at h
    · rename_i r hr
      simp at h
      have := (secondaryStep_fold p _ _ _ hr).2
      simp [← h, this, enabledSecondaries]

theorem getResultsStep_some (p : prober) (m : List (String × NodeStatus)) (node : NodeElement)
    (h : noNilDeref node = true) : ∃ m1, getResultsStep p m node = some m1 := by
  obtain ⟨st, hst⟩ := nodeStatus_some p node h
  unfold getResultsStep
  cases mapGet m node.Name <;> simp [hst]

theorem getResultsStep_spec (p : prober) (m m1 : List (String × NodeStatus))
    (node : NodeElement) (h : getResultsStep p m node = some m1) :
    (node.Name ∈ m.map Prod.fst ∧ m1 = m) ∨
      (node.Name ∉ m.map Prod.fst ∧
        ∃ st, nodeStatus p node = some st ∧ m1 = m ++ [(node.Name, st)]) := by
  unfold getResultsStep at h
  cases hg : mapGet m node.Name with
  | some v =>
    left
    rw [hg] at h
    simp at h
    refine ⟨?_, h.symm⟩
    by_contra hc
    rw [(mapGet_eq_none_iff m node.Name).mpr hc] at hg
    simp at hg
  | none =>
    right
    rw [hg] at h
    refine ⟨(mapGet_eq_none_iff m node.Name).mp hg, ?_⟩
    cases hst : nodeStatus p node with
    | none => simp [hst] at h
    | some st =>
      simp [hst] at h
      exact ⟨st, rfl, by rw [← h, mapSet_of_none _ _ _ hg]⟩

theorem getResults_fold (p : prober) (L : List (ipString × NodeElement))
    (m m1 : List (String × NodeStatus))
    (h : L.foldlM (fun r kv => getResultsStep p r kv.2) m = some m1) :
    ((m.map Prod.fst).Nodup → (m1.map Prod.fst).Nodup) ∧
    (∀ k, k ∈ m1.map Prod.fst ↔ k ∈ m.map Prod.fst ∨ ∃ kv ∈ L, kv.2.Name = k) ∧
    (∀ e ∈ m1, e ∈ m ∨ ∃ kv ∈ L, e.1 = kv.2.Name ∧ nodeStatus p kv.2 = some e.2) := by
  induction L generalizing m with
  | nil =>
    simp at h
    subst h
    simp
  | cons kv t ih =>
    simp only [List.foldlM_cons, Option.bind_eq_bind, Option.bind_eq_some] at h
    obtain ⟨m2, h2, h3⟩ := h
    obtain ⟨i1, i2, i3⟩ := ih m2 h3
    rcases getResultsStep_spec p m m2 kv.2 h2 with ⟨hin, rfl⟩ | ⟨hnot, st, hst, rfl⟩
    · refine ⟨i1, ?_, ?_⟩
      · intro k
        rw [i2 k]
        constructor
        · rintro (hk | ⟨kv2, hkv2, rfl⟩)
          · exact Or.inl hk
          · exact Or.inr ⟨kv2, List.mem_cons_of_mem _ hkv2, rfl⟩
        · rintro (hk | ⟨kv2, hkv2, rfl⟩)
          · exact Or.inl hk
          · rcases List.mem_cons.mp hkv2 with rfl | hkv2
            · exact Or.inl hin
            · exact Or.inr ⟨kv2, hkv2, rfl⟩
      · intro e he
        rcases i3 e he with h4 | ⟨kv2, hkv2, h5⟩
        · exact Or.inl h4
        · exact Or.inr ⟨kv2, List.mem_cons_of_mem _ hkv2, h5⟩
    · refine ⟨?_, ?_, ?_⟩
      · intro hnd
        apply i1
        rw [List.map_append, List.nodup_append]
        refine ⟨hnd, by simp, ?_⟩
        intro a ha hb
        simp at hb
        subst hb
        exact hnot ha
      · intro k
        rw [i2 k]
        constructor
        · rintro (hk | ⟨kv2, hkv2, rfl⟩)
          · simp only [List.map_append, List.mem_append, List.map_cons, List.map_nil,
              List.mem_singleton] at hk
            rcases hk with hk | rfl
            · exact Or.inl hk
            · exact Or.inr ⟨kv, List.mem_cons_self _ _, rfl⟩
          · exact Or.inr ⟨kv2, List.mem_cons_of_mem _ hkv2, rfl⟩
        · rintro (hk | ⟨kv2, hkv2, rfl⟩)
          · exact Or.inl (by simp [hk])
          · rcases List.mem_cons.mp hkv2 with rfl | hkv2
            · exact Or.inl (by simp)
            · exact Or.inr ⟨kv2, hkv2, rfl⟩
      · intro e he
        rcases i3 e he with h4 | ⟨kv2, hkv2, h5⟩
        · rcases List.mem_append.mp h4 with h4 | h4
          · exact Or.inl h4
          · simp at h4
            subst h4
            exact Or.inr ⟨kv, List.mem_cons_self _ _, rfl, hst⟩
        · exact Or.inr ⟨kv2, List.mem_cons_of_mem _ hkv2, h5⟩

theorem getResults_fold_some (p : prober) (L : List (ipString × NodeElement))
    (m : List (String × NodeStatus)) (h : ∀ kv ∈ L, noNilDeref kv.2 = true) :
    ∃ m1, L.foldlM (fun r kv => getResultsStep p r kv.2) m = some m1 := by
  induction L generalizing m with
  | nil => exact ⟨m, by simp⟩
  | cons kv t ih =>
    obtain ⟨m2, h2⟩ := getResultsStep_some p m kv.2 (h kv (List.mem_cons_self _ _))
    obtain ⟨m1, h1⟩ := ih m2 (fun kv2 hkv2 => h kv2 (List.mem_cons_of_mem _ hkv2))
    exact ⟨m1, by simp [h2, h1]⟩

theorem getResultsMap_spec (p : prober) (ρn : RangeOrder (ipString × NodeElement))
    (m : List (String × NodeStatus)) (h : getResultsMap p ρn = some m) :
    (m.map Prod.fst).Nodup ∧
    (∀ k, k ∈ m.map Prod.fst ↔ ∃ kv ∈ p.nodes, kv.2.Name = k) ∧
    (∀ e ∈ m, ∃ kv ∈ p.nodes, e.1 = kv.2.Name ∧ nodeStatus p kv.2 = some e.2) := by
  obtain ⟨h1, h2, h3⟩ := getResults_fold p _ _ _ h
  refine ⟨h1 (by simp), ?_, ?_⟩
  · intro k
    rw [h2 k]
    simp only [List.map_nil, List.not_mem_nil, false_or]
    constructor
    · rintro ⟨kv, hkv, rfl⟩
      exact ⟨kv, (ρn.perm _).mem_iff.mp hkv, rfl⟩
    · rintro ⟨kv, hkv, rfl⟩
      exact ⟨kv, (ρn.perm _).mem_iff.mpr hkv, rfl⟩
  · intro e he
    rcases h3 e he with h4 | ⟨kv, hkv, h5⟩
    · simp at h4
    · exact ⟨kv, (ρn.perm _).mem_iff.mp hkv, h5⟩

theorem getResultsMap_names (p : prober) (ρn : RangeOrder (ipString × NodeElement))
    (m : List (String × NodeStatus)) (h : getResultsMap p ρn = some m) :
    m.map (fun e => e.2.Name) = m.map Prod.fst := by
  apply List.map_congr_left
  intro e he
  obtain ⟨kv, _, h1, h2⟩ := (getResultsMap_spec p ρn m h).2.2 e he
  rw [nodeStatus_name p kv.2 e.2 h2, h1]

/-- Claim C1: on every prober state whose node records hold no nil pointer that
`getResults` dereferences, and for every enumeration order of the two loops,
`getResults` returns a list in which each name of a node record of the registry
occurs exactly once and no other name occurs; so no two returned `NodeStatus`
values share a name, also when several registry keys carry the same name. -/
theorem getResults_one_per_name (p : prober) (ρn : RangeOrder (ipString × NodeElement))
    (ρr : RangeOrder (String × NodeStatus))
    (hnil : ∀ kv ∈ p.nodes, noNilDeref kv.2 = true) :
    ∃ out, getResults p ρn ρr = some out ∧
      ∀ name, (out.map NodeStatus.Name).count name =
        if name ∈ p.nodes.map (fun kv => kv.2.Name) then 1 else 0 := by
  obtain ⟨m, hm⟩ := getResults_fold_some p (ρn.pick p.nodes) []
    (fun kv hkv => hnil kv ((ρn.perm _).mem_iff.mp hkv))
  have hm2 : getResultsMap p ρn = some m := hm
  refine ⟨(ρr.pick m).map Prod.snd, by simp [getResults, hm2], ?_⟩
  intro name
  obtain ⟨h1, h2, -⟩ := getResultsMap_spec p ρn m hm2
  have hperm : (((ρr.pick m).map Prod.snd).map NodeStatus.Name).Perm (m.map Prod.fst) := by
    rw [← getResultsMap_names p ρn m hm2, List.map_map]
    exact (ρr.perm m).map _
  rw [hperm.count_eq]
  have hiff : name ∈ m.map Prod.fst ↔ name ∈ p.nodes.map (fun kv => kv.2.Name) := by
    rw [h2 name]
    simp
  by_cases hmem : name ∈ p.nodes.map (fun kv => kv.2.Name)
  · rw [if_pos hmem]
    exact List.count_eq_one_of_mem h1 (hiff.mpr hmem)
  · rw [if_neg hmem]
    exact List.count_eq_zero_of_not_mem (fun hc => hmem (hiff.mp hc))

/-! ## Membership update: `setNodes` -/

theorem foldlM_inv {α β : Type} (f : β → α → Option β) (I : β → Prop) (l : List α)
    (hf : ∀ a ∈ l, ∀ b b1, f b a = some b1 → I b → I b1) (b b1 : β)
    (h : l.foldlM f b = some b1) (hb : I b) : I b1 := by
  induction l generalizing b with
  | nil =>
    simp at h
    exact h ▸ hb
  | cons a t ih =>
    simp only [List.foldlM_cons, Option.bind_eq_bind, Option.bind_eq_some] at h
    obtain ⟨b2, h2, h3⟩ := h
    exact ih (fun a2 ha2 => hf a2 (List.mem_cons_of_mem _ ha2)) b2 h3
      (hf a (List.mem_cons_self _ _) b b2 h2 hb)

theorem foldlM_establish {α β : Type} (f : β → α → Option β) (I J : β → Prop) (l : List α)
    (hf : ∀ a ∈ l, ∀ b b1, f b a = some b1 → I b → I b1)
    (hJ : ∀ a ∈ l, ∀ b b1, f b a = some b1 → J b → J b1) (a0 : α) (ha0 : a0 ∈ l)
    (hest : ∀ b b1, f b a0 = some b1 → J b → I b1) (b b1 : β)
    (h : l.foldlM f b = some b1) (hb : J b) : I b1 := by
  induction l generalizing b with
  | nil => simp at ha0
  | cons a t ih =>
    simp only [List.foldlM_cons, Option.bind_eq_bind, Option.bind_eq_some] at h
    obtain ⟨b2, h2, h3⟩ := h
    rcases List.mem_cons.mp ha0 with rfl | hin
    · exact foldlM_inv f I t (fun a2 ha2 => hf a2 (List.mem_cons_of_mem _ ha2)) b2 b1 h3
        (hest b b2 h2 hb)
    · exact ih (fun a2 ha2 => hf a2 (List.mem_cons_of_mem _ ha2))
        (fun a2 ha2 => hJ a2 (List.mem_cons_of_mem _ ha2)) hin b2 h3
        (hJ a (List.mem_cons_self _ _) b b2 h2 hb)

theorem foldlM_some {α β : Type} (f : β → α → Option β) (l : List α)
    (hf : ∀ a ∈ l, ∀ b, ∃ b1, f b a = some b1) (b : β) :
    ∃ b1, l.foldlM f b = some b1 := by
  induction l generalizing b with
  | nil => exact ⟨b, by simp⟩
  | cons a t ih =>
    obtain ⟨b2, h2⟩ := hf a (List.mem_cons_self _ _) b
    obtain ⟨b1, h1⟩ := ih (fun a2 ha2 => hf a2 (List.mem_cons_of_mem _ ha2)) b2
    exact ⟨b1, by simp [h2, h1]⟩

theorem setNodesElem_skip (env : Net) (p : prober)
    (entry : Option NodeAddressingElement × Bool) (h : skipAddress entry.1 = true) :
    setNodesElem env p entry = some p := by
  simp [setNodesElem, h]

theorem setNodesElem_spec (env : Net) (p : prober) (e : NodeAddressingElement)
    (primary : Bool) (h : skipAddress (some e) = false) :
    ∃ p1, setNodesElem env p (some e, primary) = some p1 ∧ p1.nodes = p.nodes ∧
      p1.Pinger.addrs = p.Pinger.addrs ++ (resolve env e.IP).toList ∧
      ∀ ip, mapGet p1.results ip =
        if e.IP = ip then
          some { (mapGet p.results e.IP).getD { IP := e.IP } with
                 Icmp := some (provisional env e.IP) }
        else mapGet p.results ip := by
  unfold setNodesElem
  simp only [h, Bool.false_eq_true, if_false]
  cases hr : env.ResolveIPAddr (if isIPv4 env e.IP then "ip4:icmp" else "ip6:icmp") e.IP with
  | none =>
    cases hg : mapGet p.results e.IP with
    | none =>
      simp [setIcmp, mapGet_mapSet, resolve, provisional, hr]
      intro ip
      by_cases hip : e.IP = ip <;> simp [hip]
    | some st =>
      simp [setIcmp, mapGet_mapSet, resolve, provisional, hr, hg]
  | some ra =>
    cases hg : mapGet p.results e.IP with
    | none =>
      simp [setIcmp, mapGet_mapSet, resolve, provisional, hr, Pinger.AddIPAddr]
      intro ip
      by_cases hip : e.IP = ip <;> simp [hip]
    | some st =>
      simp [setIcmp, mapGet_mapSet, resolve, provisional, hr, hg, Pinger.AddIPAddr]

theorem getNodeAddresses_eq (node : NodeElement) (v4 v6 : NodeAddressingElement)
    (h4 : node.PrimaryAddress.IPV4 = some v4) (h6 : node.PrimaryAddress.IPV6 = some v6) :
    getNodeAddresses node =
      some (node.SecondaryAddresses.foldl (fun m elem => mapSet m elem false)
        (mapSet (mapSet [] (some v4) v4.Enabled) (some v6) v6.Enabled)) := by
  simp [getNodeAddresses, h4, h6]

/-- The map that `getNodeAddresses` returns has one entry for each pointer held
by an address slot of the node. -/
theorem getNodeAddresses_keys (node : NodeElement)
    (addresses : List (Option NodeAddressingElement × Bool))
    (h : getNodeAddresses node = some addresses) :
    (addresses.map Prod.fst).Nodup ∧
      ∀ k, k ∈ addresses.map Prod.fst ↔
        k = node.PrimaryAddress.IPV4 ∨ k = node.PrimaryAddress.IPV6 ∨
          k ∈ node.SecondaryAddresses := by
  cases h4 : node.PrimaryAddress.IPV4 with
  | none => simp [getNodeAddresses, h4] at h
  | some v4 =>
    cases h6 : node.PrimaryAddress.IPV6 with
    | none => simp [getNodeAddresses, h4, h6] at h
    | some v6 =>
      rw [getNodeAddresses_eq node v4 v6 h4 h6] at h
      simp only [Option.some.injEq] at h
      subst h
      constructor
      · exact foldl_mapSet_nodup _ _ _ (mapSet_nodup _ _ _ (mapSet_nodup _ _ _ (by simp)))
      · intro k
        rw [foldl_mapSet_keys, mapSet_keys, mapSet_keys]
        simp only [List.map_nil, List.not_mem_nil, or_false]
        tauto

theorem getNodeAddresses_mem (node : NodeElement)
    (addresses : List (Option NodeAddressingElement × Bool))
    (h : getNodeAddresses node = some addresses) (e : NodeAddressingElement) :
    (∃ primary, (some e, primary) ∈ addresses) ↔ e ∈ nodeElems node := by
  have hkeys := (getNodeAddresses_keys node addresses h).2 (some e)
  have hmem : (∃ primary, (some e, primary) ∈ addresses) ↔
      some e ∈ addresses.map Prod.fst := by
    constructor
    · rintro ⟨primary, hp⟩
      exact List.mem_map.mpr ⟨(some e, primary), hp, rfl⟩
    · intro hk
      obtain ⟨entry, hentry, hfst⟩ := List.mem_map.mp hk
      exact ⟨entry.2, by rw [← hfst]; exact hentry⟩
  rw [hmem, hkeys]
  simp only [nodeElems, List.mem_filterMap, id, List.mem_cons]
  constructor
  · rintro (h1 | h1 | h1)
    · exact ⟨some e, Or.inl h1, rfl⟩
    · exact ⟨some e, Or.inr (Or.inl h1), rfl⟩
    · exact ⟨some e, Or.inr (Or.inr h1), rfl⟩
  · rintro ⟨s, hs, rfl⟩
    exact hs

theorem getNodeAddresses_some (node : NodeElement) (h : primariesSet node = true) :
    ∃ addresses, getNodeAddresses node = some addresses := by
  unfold primariesSet at h
  cases h4 : node.PrimaryAddress.IPV4 with
  | none => simp [h4] at h
  | some v4 =>
    cases h6 : node.PrimaryAddress.IPV6 with
    | none => simp [h6] at h
    | some v6 => exact ⟨_, getNodeAddresses_eq node v4 v6 h4 h6⟩

theorem getNodeAddresses_none (node : NodeElement) (h : primariesSet node = false) :
    getNodeAddresses node = none := by
  unfold primariesSet at h
  unfold getNodeAddresses
  cases h4 : node.PrimaryAddress.IPV4 with
  | none => simp
  | some v4 =>
    cases h6 : node.PrimaryAddress.IPV6 with
    | none => simp
    | some v6 => simp [h4, h6] at h

/-- An invariant of the loop body of `setNodes` on the addresses of the nodes of
`nodes` holds after `setNodes` when it holds once the registry is swapped. -/
theorem setNodes_inv (env : Net) (ρn : RangeOrder (ipString × NodeElement))
    (ρa : RangeOrder (Option NodeAddressingElement × Bool)) (p p1 : prober)
    (nodes : nodeMap) (I : prober → Prop)
    (hI : ∀ kv ∈ nodes, ∀ addresses, getNodeAddresses kv.2 = some addresses →
      ∀ entry ∈ addresses, ∀ b b1, setNodesElem env b entry = some b1 → I b → I b1)
    (h : setNodes env ρn ρa p nodes = some p1) (h0 : I { p with nodes := nodes }) : I p1 := by
  unfold setNodes at h
  refine foldlM_inv _ I _ ?_ _ _ h h0
  intro kv hkv b b1 hb
  have hkv2 : kv ∈ nodes := (ρn.perm _).mem_iff.mp hkv
  unfold setNodesNode at hb
  cases ha : getNodeAddresses kv.2 with
  | none => simp [ha] at hb
  | some addresses =>
    simp only [ha] at hb
    refine foldlM_inv _ I _ ?_ _ _ hb
    intro entry hentry
    exact hI kv hkv2 addresses ha entry ((ρa.perm _).mem_iff.mp hentry)

/-- A property `I` established by the loop body of `setNodes` at one address of
a node of `nodes`, from states that satisfy the invariant `J` of the body,
and kept by the body at every address, holds after `setNodes`. -/
theorem setNodes_establish (env : Net) (ρn : RangeOrder (ipString × NodeElement))
    (ρa : RangeOrder (Option NodeAddressingElement × Bool)) (p p1 : prober)
    (nodes : nodeMap) (I J : prober → Prop)
    (hI : ∀ entry b b1, setNodesElem env b entry = some b1 → I b → I b1)
    (hJ : ∀ entry b b1, setNodesElem env b entry = some b1 → J b → J b1)
    (kv : ipString × NodeElement) (hkv : kv ∈ nodes) (e : NodeAddressingElement)
    (he : e ∈ nodeElems kv.2)
    (hest : ∀ primary b b1, setNodesElem env b (some e, primary) = some b1 → J b → I b1)
    (h : setNodes env ρn ρa p nodes = some p1) (h0 : J { p with nodes := nodes }) :
    I p1 := by
  unfold setNodes at h
  have hnode : ∀ (K : prober → Prop),
      (∀ entry b b1, setNodesElem env b entry = some b1 → K b → K b1) →
      ∀ kv2 b b1, setNodesNode env ρa b kv2 = some b1 → K b → K b1 := by
    intro K hK kv2 b b1 hb
    unfold setNodesNode at hb
    cases ha : getNodeAddresses kv2 with
    | none => simp [ha] at hb
    | some addresses =>
      simp only [ha] at hb
      exact foldlM_inv _ K _ (fun entry _ => hK entry) _ _ hb
  refine foldlM_establish _ I J _ (fun kv2 _ => hnode I hI kv2.2)
    (fun kv2 _ => hnode J hJ kv2.2) kv ((ρn.perm _).mem_iff.mpr hkv) ?_ _ _ h h0
  intro b b1 hb
  unfold setNodesNode at hb
  cases ha : getNodeAddresses kv.2 with
  | none => simp [ha] at hb
  | some addresses =>
    simp only [ha] at hb
    obtain ⟨primary, hprim⟩ := (getNodeAddresses_mem kv.2 addresses ha e).mpr he
    exact foldlM_establish _ I J _ (fun entry _ => hI entry) (fun entry _ => hJ entry)
      (some e, primary) ((ρa.perm _).mem_iff.mpr hprim) (hest primary) _ _ hb

theorem setNodesElem_some (env : Net) (p : prober)
    (entry : Option NodeAddressingElement × Bool) :
    ∃ p1, setNodesElem env p entry = some p1 := by
  obtain ⟨elem, primary⟩ := entry
  cases hs : skipAddress elem with
  | true => exact ⟨p, setNodesElem_skip env p _ hs⟩
  | false =>
    cases elem with
    | none => simp [skipAddress] at hs
    | some e =>
      obtain ⟨p1, h1, -⟩ := setNodesElem_spec env p e primary hs
      exact ⟨p1, h1⟩

/-- Function `setNodes` completes on every node set whose nodes have both
primary address pointers set. -/
theorem setNodes_some (env : Net) (ρn : RangeOrder (ipString × NodeElement))
    (ρa : RangeOrder (Option NodeAddressingElement × Bool)) (p : prober)
    (nodes : nodeMap) (h : ∀ kv ∈ nodes, primariesSet kv.2 = true) :
    ∃ p1, setNodes env ρn ρa p nodes = some p1 := by
  unfold setNodes
  apply foldlM_some
  intro kv hkv b
  obtain ⟨addresses, ha⟩ := getNodeAddresses_some kv.2 (h kv ((ρn.perm _).mem_iff.mp hkv))
  unfold setNodesNode
  simp only [ha]
  exact foldlM_some _ _ (fun entry _ b2 => setNodesElem_some env b2 entry) b

/-- The effect of the loop body of `setNodes` on the store entry of `ip`: it is
left as it is, or its `Icmp` slot is set to the status of `ip`. -/
theorem setNodesElem_results (env : Net) (p p1 : prober)
    (entry : Option NodeAddressingElement × Bool)
    (h : setNodesElem env p entry = some p1) (ip : String) :
    mapGet p1.results ip = mapGet p.results ip ∨
      (∃ e, entry.1 = some e ∧ skipAddress (some e) = false ∧ e.IP = ip ∧
        mapGet p1.results ip =
          some { (mapGet p.results ip).getD { IP := ip } with
                 Icmp := some (provisional env ip) }) := by
  obtain ⟨elem, primary⟩ := entry
  cases hs : skipAddress elem with
  | true =>
    rw [setNodesElem_skip env p _ hs] at h
    simp at h
    subst h
    exact Or.inl rfl
  | false =>
    cases elem with
    | none => simp [skipAddress] at hs
    | some e =>
      obtain ⟨p2, h1, -, -, h4⟩ := setNodesElem_spec env p e primary hs
      rw [h1] at h
      simp at h
      subst h
      by_cases hip : e.IP = ip
      · right
        refine ⟨e, rfl, hs, hip, ?_⟩
        rw [h4 ip, if_pos hip, hip]
      · left
        rw [h4 ip, if_neg hip]

/-- The effect of the loop body of `setNodes` on the transport: nothing, or the
registration of the address resolved for a non-skipped element. -/
theorem setNodesElem_addrs (env : Net) (p p1 : prober)
    (entry : Option NodeAddressingElement × Bool)
    (h : setNodesElem env p entry = some p1) :
    p1.Pinger.addrs = p.Pinger.addrs ∨
      ∃ e ra, entry.1 = some e ∧ skipAddress (some e) = false ∧
        resolve env e.IP = some ra ∧ p1.Pinger.addrs = p.Pinger.addrs ++ [ra] := by
  obtain ⟨elem, primary⟩ := entry
  cases hs : skipAddress elem with
  | true =>
    rw [setNodesElem_skip env p _ hs] at h
    simp at h
    subst h
    exact Or.inl rfl
  | false =>
    cases elem with
    | none => simp [skipAddress] at hs
    | some e =>
      obtain ⟨p2, h1, -, h3, -⟩ := setNodesElem_spec env p e primary hs
      rw [h1] at h
      simp at h
      subst h
      cases hr : resolve env e.IP with
      | none =>
        left
        simp [h3, hr]
      | some ra =>
        right
        exact ⟨e, ra, rfl, hs, hr, by simp [h3, hr]⟩

/-- Every address that `setNodes` registers with the transport is the
resolution of a non-skipped address of a node of the set. -/
theorem setNodes_addrs (env : Net) (ρn : RangeOrder (ipString × NodeElement))
    (ρa : RangeOrder (Option NodeAddressingElement × Bool)) (p p1 : prober)
    (nodes : nodeMap) (h : setNodes env ρn ρa p nodes = some p1) :
    ∃ added, p1.Pinger.addrs = p.Pinger.addrs ++ added ∧
      ∀ ra ∈ added, ∃ kv ∈ nodes, ∃ e ∈ nodeElems kv.2,
        skipAddress (some e) = false ∧ resolve env e.IP = some ra := by
  refine setNodes_inv env ρn ρa p p1 nodes
    (fun b => ∃ added, b.Pinger.addrs = p.Pinger.addrs ++ added ∧
      ∀ ra ∈ added, ∃ kv ∈ nodes, ∃ e ∈ nodeElems kv.2,
        skipAddress (some e) = false ∧ resolve env e.IP = some ra) ?_ h ⟨[], by simp, by simp⟩
  intro kv hkv addresses ha entry hentry b b1 hb ⟨added, h1, h2⟩
  rcases setNodesElem_addrs env b b1 entry hb with h3 | ⟨e, ra, h4, h5, h6, h7⟩
  · exact ⟨added, by rw [h3, h1], h2⟩
  · refine ⟨added ++ [ra], by rw [h7, h1, List.append_assoc], ?_⟩
    intro ra2 hra2
    rcases List.mem_append.mp hra2 with h8 | h8
    · exact h2 ra2 h8
    · simp at h8
      subst h8
      have hmem : e ∈ nodeElems kv.2 :=
        (getNodeAddresses_mem kv.2 addresses ha e).mp ⟨entry.2, by rw [← h4]; exact hentry⟩
      exact ⟨kv, hkv, e, hmem, h5, h6⟩

/-- After `setNodes` the store entry of every non-skipped address of a node of
the set exists and its `Icmp` slot holds the status of that address. -/
theorem setNodes_icmp (env : Net) (ρn : RangeOrder (ipString × NodeElement))
    (ρa : RangeOrder (Option NodeAddressingElement × Bool)) (p p1 : prober)
    (nodes : nodeMap) (h : setNodes env ρn ρa p nodes = some p1)
    (kv : ipString × NodeElement) (hkv : kv ∈ nodes) (e : NodeAddressingElement)
    (he : e ∈ nodeElems kv.2) (hskip : skipAddress (some e) = false) :
    ∃ st, mapGet p1.results e.IP = some st ∧ st.Icmp = some (provisional env e.IP) := by
  refine setNodes_establish env ρn ρa p p1 nodes
    (fun b => ∃ st, mapGet b.results e.IP = some st ∧ st.Icmp = some (provisional env e.IP))
    (fun _ => True) ?_ (fun _ _ _ _ _ => trivial) kv hkv e he ?_ h trivial
  · intro entry b b1 hb ⟨st, h1, h2⟩
    rcases setNodesElem_results env b b1 entry hb e.IP with h3 | ⟨e2, -, -, -, h3⟩
    · exact ⟨st, by rw [h3, h1], h2⟩
    · exact ⟨_, h3, rfl⟩
  · intro primary b b1 hb _
    rcases setNodesElem_results env b b1 _ hb e.IP with h3 | ⟨e2, -, -, -, h3⟩
    · obtain ⟨p2, h4, -, -, h5⟩ := setNodesElem_spec env b e primary hskip
      rw [h4] at hb
      simp at hb
      subst hb
      exact ⟨_, by rw [h5 e.IP, if_pos rfl], rfl⟩
    · exact ⟨_, h3, rfl⟩

/-- Claim C2: for every node set whose nodes have both primary pointers set (so that
`setNodes` runs to completion) and every non-skipped address of a node in it
whose resolution fails, `setNodes` completes, afterwards the store has an entry
for the address string whose `Icmp` slot is exactly latency 0 and status
"Failed to resolve IP", and every address that this call registered with the
transport was resolved from a different address string. -/
theorem setNodes_resolution_fails (env : Net) (ρn : RangeOrder (ipString × NodeElement))
    (ρa : RangeOrder (Option NodeAddressingElement × Bool)) (p : prober)
    (nodes : nodeMap) (hnil : ∀ kv ∈ nodes, primariesSet kv.2 = true)
    (kv : ipString × NodeElement) (hkv : kv ∈ nodes) (e : NodeAddressingElement)
    (he : e ∈ nodeElems kv.2) (hskip : skipAddress (some e) = false)
    (hres : resolve env e.IP = none) :
    ∃ p1, setNodes env ρn ρa p nodes = some p1 ∧
      (∃ st, mapGet p1.results e.IP = some st ∧
        st.Icmp = some ⟨0, "Failed to resolve IP"⟩) ∧
      ∃ added, p1.Pinger.addrs = p.Pinger.addrs ++ added ∧
        ∀ ra ∈ added, ∃ kv2 ∈ nodes, ∃ e2 ∈ nodeElems kv2.2,
          skipAddress (some e2) = false ∧ e2.IP ≠ e.IP ∧ resolve env e2.IP = some ra := by
  obtain ⟨p1, h1⟩ := setNodes_some env ρn ρa p nodes hnil
  refine ⟨p1, h1, ?_, ?_⟩
  · obtain ⟨st, h2, h3⟩ := setNodes_icmp env ρn ρa p p1 nodes h1 kv hkv e he hskip
    exact ⟨st, h2, by rw [h3]; simp [provisional, hres]⟩
  · obtain ⟨added, h2, h3⟩ := setNodes_addrs env ρn ρa p p1 nodes h1
    refine ⟨added, h2, ?_⟩
    intro ra hra
    obtain ⟨kv2, hkv2, e2, he2, h4, h5⟩ := h3 ra hra
    refine ⟨kv2, hkv2, e2, he2, h4, ?_, h5⟩
    intro hc
    rw [hc, hres] at h5
    simp at h5

/-- Claim C3: for every node set whose nodes have both primary pointers set, every
prior state and every non-skipped address of a node in the set whose resolution
succeeds with `ra`, `setNodes` completes, `ra` is among the addresses that this
call registered with the transport, and afterwards the `Icmp` slot of the entry
is exactly latency 0 and status "Connection timed out", whatever the store held
for the address before. -/
theorem setNodes_resolution_succeeds (env : Net) (ρn : RangeOrder (ipString × NodeElement))
    (ρa : RangeOrder (Option NodeAddressingElement × Bool)) (p : prober)
    (nodes : nodeMap) (hnil : ∀ kv ∈ nodes, primariesSet kv.2 = true)
    (kv : ipString × NodeElement) (hkv : kv ∈ nodes) (e : NodeAddressingElement)
    (he : e ∈ nodeElems kv.2) (hskip : skipAddress (some e) = false)
    (ra : IPAddr) (hres : resolve env e.IP = some ra) :
    ∃ p1, setNodes env ρn ρa p nodes = some p1 ∧
      (∃ added, p1.Pinger.addrs = p.Pinger.addrs ++ added ∧ ra ∈ added) ∧
      ∃ st, mapGet p1.results e.IP = some st ∧
        st.Icmp = some ⟨0, "Connection timed out"⟩ := by
  obtain ⟨p1, h1⟩ := setNodes_some env ρn ρa p nodes hnil
  refine ⟨p1, h1, ?_, ?_⟩
  · refine setNodes_establish env ρn ρa p p1 nodes
      (fun b => ∃ added, b.Pinger.addrs = p.Pinger.addrs ++ added ∧ ra ∈ added)
      (fun b => ∃ added, b.Pinger.addrs = p.Pinger.addrs ++ added)
      ?_ ?_ kv hkv e he ?_ h1 ⟨[], by simp⟩
    · intro entry b b1 hb ⟨added, h2, h3⟩
      rcases setNodesElem_addrs env b b1 entry hb with h4 | ⟨e2, ra2, -, -, -, h4⟩
      · exact ⟨added, by rw [h4, h2], h3⟩
      · exact ⟨added ++ [ra2], by rw [h4, h2, List.append_assoc],
          List.mem_append_left _ h3⟩
    · intro entry b b1 hb ⟨added, h2⟩
      rcases setNodesElem_addrs env b b1 entry hb with h4 | ⟨e2, ra2, -, -, -, h4⟩
      · exact ⟨added, by rw [h4, h2]⟩
      · exact ⟨added ++ [ra2], by rw [h4, h2, List.append_assoc]⟩
    · intro primary b b1 hb ⟨added, h2⟩
      obtain ⟨p2, h4, -, h5, -⟩ := setNodesElem_spec env b e primary hskip
      rw [h4] at hb
      simp at hb
      subst hb
      exact ⟨added ++ [ra], by rw [h5, h2, hres]; simp, by simp⟩
  · obtain ⟨st, h2, h3⟩ := setNodes_icmp env ρn ρa p p1 nodes h1 kv hkv e he hskip
    exact ⟨st, h2, by rw [h3]; simp [provisional, hres]⟩

/-! ## Completion handling: `OnRecv` -/

/-- The handler on an address that the registry knows and the store holds. -/
theorem OnRecv_known (p : prober) (addr : String) (rtt : Int)
    (node : NodeElement) (st : PathStatus)
    (hnode : mapGet p.nodes addr = some node) (hst : mapGet p.results addr = some st) :
    ∃ p1, OnRecv p addr rtt = some p1 ∧
      mapGet p1.results addr = some { st with Icmp := some ⟨rtt, ""⟩ } ∧
      (∀ ip, ip ≠ addr → mapGet p1.results ip = mapGet p.results ip) ∧
      p1.nodes = p.nodes ∧ p1.Pinger = p.Pinger := by
  refine ⟨{ p with results := mapSet p.results addr { st with Icmp := some ⟨rtt, ""⟩ } },
    by simp [OnRecv, hnode, setIcmp, hst], by simp [mapGet_mapSet], ?_, rfl, rfl⟩
  intro ip hip
  simp [mapGet_mapSet, Ne.symm hip]

/-- Claim C4: for every state and completion `(addr, rtt)` whose address the
registry maps to a node and that has a store entry `st`, the handler returns
normally and the entry of `addr` becomes `st` with its `Icmp` slot set to exactly
latency `rtt` and status "", whatever the slot held; the registry, the
transport and every other entry are as before. -/
theorem OnRecv_writes_latency (p : prober) (addr : String) (rtt : Int)
    (node : NodeElement) (st : PathStatus)
    (hnode : mapGet p.nodes addr = some node) (hst : mapGet p.results addr = some st) :
    ∃ p1, OnRecv p addr rtt = some p1 ∧
      mapGet p1.results addr = some { st with Icmp := some ⟨rtt, ""⟩ } ∧
      (∀ ip, ip ≠ addr → mapGet p1.results ip = mapGet p.results ip) ∧
      p1.nodes = p.nodes ∧ p1.Pinger = p.Pinger :=
  OnRecv_known p addr rtt node st hnode hst

/-- Claim C5: for every state and completion `(addr, rtt)` whose address is not a key
of the registry, the handler returns normally and the state it returns is the
state it was given: registry, transport and every store entry unchanged. -/
theorem OnRecv_unknown_address (p : prober) (addr : String) (rtt : Int)
    (h : addr ∉ p.nodes.map Prod.fst) : OnRecv p addr rtt = some p := by
  simp [OnRecv, (mapGet_eq_none_iff p.nodes addr).mpr h]

/-- What `OnRecv` does to the state, in every case in which it returns. -/
theorem OnRecv_spec (p p1 : prober) (addr : String) (rtt : Int)
    (h : OnRecv p addr rtt = some p1) :
    p1 = p ∨ ∃ st, mapGet p.results addr = some st ∧
      p1 = { p with results := mapSet p.results addr { st with Icmp := some ⟨rtt, ""⟩ } } := by
  unfold OnRecv at h
  cases hn : mapGet p.nodes addr with
  | none =>
    simp [hn] at h
    exact Or.inl h.symm
  | some node =>
    cases hs : mapGet p.results addr with
    | none => simp [hn, setIcmp, hs] at h
    | some st =>
      simp [hn, setIcmp, hs] at h
      exact Or.inr ⟨st, rfl, h.symm⟩

/-! ## Aggregation: the secondary addresses -/

/-- Claim C7: for every `NodeStatus` in a result of `getResults` there is a node
record of the registry with its name, none of whose secondary pointers is nil,
such that the secondary list of the status is the list of the copies
`copyResultRLocked` of the store entries of the enabled secondary addresses of the
record, in the order of the record (disabled ones left out; the copy is nil
when the store has no entry). -/
theorem getResults_secondary (p : prober) (ρn : RangeOrder (ipString × NodeElement))
    (ρr : RangeOrder (String × NodeStatus)) (out : List NodeStatus)
    (h : getResults p ρn ρr = some out) (st : NodeStatus) (hst : st ∈ out) :
    ∃ kv ∈ p.nodes, kv.2.Name = st.Name ∧
      (∀ s ∈ kv.2.SecondaryAddresses, s ≠ none) ∧
      st.Host.SecondaryAddresses =
        (enabledSecondaries kv.2).map (fun a => copyResultRLocked p a.IP) := by
  unfold getResults at h
  cases hm : getResultsMap p ρn with
  | none => simp [hm] at h
  | some m =>
    simp only [hm, Option.some.injEq] at h
    subst h
    obtain ⟨e, he, rfl⟩ := List.mem_map.mp hst
    have he2 : e ∈ m := (ρr.perm m).mem_iff.mp he
    obtain ⟨kv, hkv, -, h2⟩ := (getResultsMap_spec p ρn m hm).2.2 e he2
    refine ⟨kv, hkv, (nodeStatus_name p kv.2 e.2 h2).symm, ?_,
      nodeStatus_secondary p kv.2 e.2 h2⟩
    unfold nodeStatus at h2
    split at h2
    · simp at h2
    · split at h2
      · simp at h2
      · rename_i r hr
        exact (secondaryStep_fold p _ _ _ hr).1

/-! ## Failure on a nil primary address -/

/-- Function `setNodes` panics on every node set that holds a node with a nil
primary address pointer. -/
theorem setNodes_nil_primary (env : Net) (ρn : RangeOrder (ipString × NodeElement))
    (ρa : RangeOrder (Option NodeAddressingElement × Bool)) (p : prober)
    (nodes : nodeMap) (kv : ipString × NodeElement) (hkv : kv ∈ nodes)
    (h : primariesSet kv.2 = false) : setNodes env ρn ρa p nodes = none := by
  cases hs : setNodes env ρn ρa p nodes with
  | none => rfl
  | some p1 =>
    exfalso
    unfold setNodes at hs
    refine foldlM_establish _ (fun _ => False) (fun _ => True) _ (fun _ _ _ _ _ hf => hf)
      (fun _ _ _ _ _ _ => trivial) kv ((ρn.perm _).mem_iff.mpr hkv) ?_ _ _ hs trivial
    intro b b1 hb _
    simp [setNodesNode, getNodeAddresses_none kv.2 h] at hb

/-- Claim C8 fails on the code: on the node set that holds the IPv6-only node D,
whose primary IPv4 pointer is nil, `setNodes` panics (in `getNodeAddresses`,
before `skipAddress` is reached). -/
theorem setNodes_panics_on_nil_primary :
    setNodes sampleNet (RangeOrder.inOrder _) (RangeOrder.inOrder _) emptyProber
      [("fd00::1", nodeD)] = none := by
  decide

/-! ## Invariants of the result store -/

theorem setNodes_keeps_entries (env : Net) (ρn : RangeOrder (ipString × NodeElement))
    (ρa : RangeOrder (Option NodeAddressingElement × Bool)) (p p1 : prober)
    (nodes : nodeMap) (h : setNodes env ρn ρa p nodes = some p1) (a : String)
    (ha : (mapGet p.results a).isSome = true) : (mapGet p1.results a).isSome = true := by
  refine setNodes_inv env ρn ρa p p1 nodes (fun b => (mapGet b.results a).isSome = true)
    ?_ h ha
  intro kv _ addresses _ entry _ b b1 hb hI
  rcases setNodesElem_results env b b1 entry hb a with h3 | ⟨e2, -, -, -, h3⟩
  · rw [h3]
    exact hI
  · rw [h3]
    rfl

theorem OnRecv_keeps_entries (p p1 : prober) (addr : String) (rtt : Int)
    (h : OnRecv p addr rtt = some p1) (a : String)
    (ha : (mapGet p.results a).isSome = true) : (mapGet p1.results a).isSome = true := by
  rcases OnRecv_spec p p1 addr rtt h with rfl | ⟨st, -, rfl⟩
  · exact ha
  · simp only [mapGet_mapSet]
    split
    · rfl
    · exact ha

theorem setNodes_nodes (env : Net) (ρn : RangeOrder (ipString × NodeElement))
    (ρa : RangeOrder (Option NodeAddressingElement × Bool)) (p p1 : prober)
    (nodes : nodeMap) (h : setNodes env ρn ρa p nodes = some p1) : p1.nodes = nodes := by
  refine setNodes_inv env ρn ρa p p1 nodes (fun b => b.nodes = nodes) ?_ h rfl
  intro kv _ addresses _ entry _ b b1 hb hI
  obtain ⟨elem, primary⟩ := entry
  cases hs : skipAddress elem with
  | true =>
    rw [setNodesElem_skip env b _ hs] at hb
    simp at hb
    subst hb
    exact hI
  | false =>
    cases elem with
    | none => simp [skipAddress] at hs
    | some e =>
      obtain ⟨p2, h1, h2, -⟩ := setNodesElem_spec env b e primary hs
      rw [h1] at hb
      simp at hb
      subst hb
      rw [h2, hI]

theorem exactlyOne_provisional (env : Net) (ip : String) :
    exactlyOne (provisional env ip) := by
  unfold provisional exactlyOne
  cases resolve env ip <;> simp [Xor']

theorem setNodes_icmpExactlyOne (env : Net) (ρn : RangeOrder (ipString × NodeElement))
    (ρa : RangeOrder (Option NodeAddressingElement × Bool)) (p p1 : prober)
    (nodes : nodeMap) (h : setNodes env ρn ρa p nodes = some p1)
    (hp : icmpExactlyOne p) : icmpExactlyOne p1 := by
  refine setNodes_inv env ρn ρa p p1 nodes icmpExactlyOne ?_ h hp
  intro kv _ addresses _ entry _ b b1 hb hI ip st c hst hc
  rcases setNodesElem_results env b b1 entry hb ip with h3 | ⟨e2, -, -, -, h3⟩
  · rw [h3] at hst
    exact hI ip st c hst hc
  · rw [h3] at hst
    simp only [Option.some.injEq] at hst
    subst hst
    simp only [Option.some.injEq] at hc
    subst hc
    exact exactlyOne_provisional env ip

/-- Claim C9, as amended: in every state reachable from `newProber` by `setNodes`
calls and by completions with a positive round-trip time, every status stored
in an `Icmp` slot of the result store has exactly one of a non-zero latency and
a non-empty status message. -/
theorem reachable_icmp_exactlyOne (env : Net) (p : prober)
    (h : Reachable env (fun rtt => 0 < rtt) p) : icmpExactlyOne p := by
  induction h with
  | init ρn ρa nodes p hnew =>
    refine setNodes_icmpExactlyOne env ρn ρa _ p nodes hnew ?_
    intro ip st c hst
    simp [mapGet] at hst
  | setNodes ρn ρa nodes p p1 _ hset ih =>
    exact setNodes_icmpExactlyOne env ρn ρa p p1 nodes hset ih
  | recv addr rtt p p1 _ hrtt hrecv ih =>
    rcases OnRecv_spec p p1 addr rtt hrecv with rfl | ⟨st0, -, rfl⟩
    · exact ih
    · intro ip st c hst hc
      simp only [mapGet_mapSet] at hst
      split at hst
      · simp only [Option.some.injEq] at hst
        subst hst
        simp only [Option.some.injEq] at hc
        subst hc
        have : rtt ≠ 0 := by omega
        simp [exactlyOne, Xor', this]
      · exact ih ip st c hst hc

/-- Claim C9 fails as stated: a completion with a round-trip time of 0 leaves a
status with latency 0 and an empty message, for which neither alternative
holds. The state is reached by `newProber` on the registry of node A followed by
the completion `("1.1.1.1", 0)`. -/
theorem reachable_icmp_zero_rtt :
    ¬ ∀ (env : Net) (p : prober), Reachable env (fun rtt => 0 ≤ rtt) p → icmpExactlyOne p := by
  intro hall
  have hreach : Reachable sampleNet (fun rtt => 0 ≤ rtt) (stateARecv 0) :=
    Reachable.recv "1.1.1.1" 0 stateA (stateARecv 0)
      (Reachable.init (RangeOrder.inOrder _) (RangeOrder.inOrder _)
        [("1.1.1.1", nodeA)] stateA (by decide))
      (le_refl 0) (by decide)
  have hbad := hall sampleNet (stateARecv 0) hreach "1.1.1.1"
    { IP := "1.1.1.1", Icmp := some ⟨0, ""⟩ } ⟨0, ""⟩ (by decide) rfl
  simp [exactlyOne, Xor'] at hbad

/-- Claim C10: for every state and every operation that returns (a `setNodes` call
with any node set and enumeration orders, or any completion), every address
that has a store entry before the operation has one after it; no condition is
put on the new registry. -/
theorem results_never_removed (env : Net) (p p1 : prober) (op : Op)
    (h : op.run env p = some p1) (a : String)
    (ha : (mapGet p.results a).isSome = true) : (mapGet p1.results a).isSome = true := by
  cases op with
  | setNodes ρn ρa nodes => exact setNodes_keeps_entries env ρn ρa p p1 nodes h a ha
  | recv addr rtt => exact OnRecv_keeps_entries p p1 addr rtt h a ha

/-! ## A round of completions after `setNodes` -/

theorem deliver_spec (cs : List (String × Int)) (p1 : prober)
    (hcs : ∀ c ∈ cs, (mapGet p1.nodes c.1).isSome = true ∧
      (mapGet p1.results c.1).isSome = true)
    (hnd : (cs.map Prod.fst).Nodup) :
    ∃ p2, deliver p1 cs = some p2 ∧ p2.nodes = p1.nodes ∧
      (∀ c ∈ cs, ∃ st, mapGet p2.results c.1 = some st ∧ st.Icmp = some ⟨c.2, ""⟩) ∧
      (∀ ip, ip ∉ cs.map Prod.fst → mapGet p2.results ip = mapGet p1.results ip) := by
  induction cs generalizing p1 with
  | nil => exact ⟨p1, by simp [deliver], rfl, by simp, by simp⟩
  | cons c t ih =>
    obtain ⟨hn, hr⟩ := hcs c (List.mem_cons_self _ _)
    obtain ⟨node, hnode⟩ := Option.isSome_iff_exists.mp hn
    obtain ⟨st, hst⟩ := Option.isSome_iff_exists.mp hr
    obtain ⟨q, hq1, hq2, hq3, hq4, -⟩ := OnRecv_known p1 c.1 c.2 node st hnode hst
    rw [List.map_cons, List.nodup_cons] at hnd
    obtain ⟨hnot, hnd2⟩ := hnd
    have hcs2 : ∀ c2 ∈ t, (mapGet q.nodes c2.1).isSome = true ∧
        (mapGet q.results c2.1).isSome = true := by
      intro c2 hc2
      have hne : c2.1 ≠ c.1 := by
        intro heq
        exact hnot (heq ▸ List.mem_map_of_mem Prod.fst hc2)
      rw [hq4, hq3 c2.1 hne]
      exact hcs c2 (List.mem_cons_of_mem _ hc2)
    obtain ⟨p2, h1, h2, h3, h4⟩ := ih q hcs2 hnd2
    refine ⟨p2, ?_, by rw [h2, hq4], ?_, ?_⟩
    · unfold deliver at h1 ⊢
      simp [hq1, h1]
    · intro c2 hc2
      rcases List.mem_cons.mp hc2 with rfl | hc2
      · exact ⟨_, by rw [h4 _ hnot, hq2], rfl⟩
      · exact h3 c2 hc2
    · intro ip hip
      simp only [List.map_cons, List.mem_cons, not_or] at hip
      rw [h4 ip hip.2, hq3 ip hip.1]

/-- When resolution renders every non-skipped address of the node set as
itself, the addresses registered with the transport are the probed address
strings. -/
theorem registered_iff_probed (env : Net) (nodes : nodeMap)
    (hrender : ∀ a ra, IsEnabledAddr nodes a → resolve env a = some ra → ra = a)
    (ra : String) : IsRegisteredAddr env nodes ra ↔ IsProbedAddr env nodes ra := by
  constructor
  · rintro ⟨a, ha, hres⟩
    have heq : ra = a := hrender a ra ha hres
    subst heq
    exact ⟨ha, by rw [hres]; rfl⟩
  · rintro ⟨ha, hres⟩
    obtain ⟨ra2, hra2⟩ := Option.isSome_iff_exists.mp hres
    have heq : ra2 = ra := hrender ra ra2 ha hra2
    subst heq
    exact ⟨ra2, ha, hra2⟩

/-- Claim C6, as amended: for any node set whose nodes have both primary pointers
set, in which every probed address (non-skipped and resolvable) is a key of
the registry and every non-skipped address resolves to an address that renders
as the address string itself, after `setNodes` followed by the round `cs` that
the transport delivers, one completion `(addr.String(), rtt)` for each address
registered by `setNodes` and for no other address, the handler never panics
and every probed address has a store entry whose `Icmp` slot holds the
round-trip time of its completion as latency and an empty status message. -/
theorem round_sets_latency (env : Net) (ρn : RangeOrder (ipString × NodeElement))
    (ρa : RangeOrder (Option NodeAddressingElement × Bool)) (p : prober)
    (nodes : nodeMap) (cs : List (String × Int))
    (hnil : ∀ kv ∈ nodes, primariesSet kv.2 = true)
    (hkeys : ∀ a, IsProbedAddr env nodes a → a ∈ nodes.map Prod.fst)
    (hrender : ∀ a ra, IsEnabledAddr nodes a → resolve env a = some ra → ra = a)
    (hcs : ∀ c ∈ cs, IsRegisteredAddr env nodes c.1)
    (hall : ∀ ra, IsRegisteredAddr env nodes ra → ra ∈ cs.map Prod.fst)
    (hnd : (cs.map Prod.fst).Nodup) :
    ∃ p1 p2, setNodes env ρn ρa p nodes = some p1 ∧ deliver p1 cs = some p2 ∧
      ∀ a, IsProbedAddr env nodes a →
        ∃ rtt st, (a, rtt) ∈ cs ∧ mapGet p2.results a = some st ∧
          st.Icmp = some ⟨rtt, ""⟩ := by
  obtain ⟨p1, h1⟩ := setNodes_some env ρn ρa p nodes hnil
  have hnodes := setNodes_nodes env ρn ρa p p1 nodes h1
  have hpre : ∀ c ∈ cs, (mapGet p1.nodes c.1).isSome = true ∧
      (mapGet p1.results c.1).isSome = true := by
    intro c hc
    have hprobed : IsProbedAddr env nodes c.1 :=
      (registered_iff_probed env nodes hrender c.1).mp (hcs c hc)
    constructor
    · rw [hnodes]
      cases hg : mapGet nodes c.1 with
      | none => exact absurd (hkeys c.1 hprobed) ((mapGet_eq_none_iff nodes c.1).mp hg)
      | some v => rfl
    · obtain ⟨⟨kv, hkv, e, he, hskip, hip⟩, -⟩ := hprobed
      obtain ⟨st, hst, -⟩ := setNodes_icmp env ρn ρa p p1 nodes h1 kv hkv e he hskip
      rw [← hip, hst]
      rfl
  obtain ⟨p2, h2, -, h3, -⟩ := deliver_spec cs p1 hpre hnd
  refine ⟨p1, p2, h1, h2, ?_⟩
  intro a ha
  obtain ⟨c, hc, rfl⟩ := List.mem_map.mp
    (hall a ((registered_iff_probed env nodes hrender a).mpr ha))
  obtain ⟨st, hst, hicmp⟩ := h3 c hc
  exact ⟨c.2, st, hc, hst, hicmp⟩

/-- A second input on which the round leaves a probed address without
latency: in `registryL` both addresses of node L are enabled, resolvable and
keys of the registry, but `0:0:0:0:0:0:0:1` is registered, and answered, as
`::1`. The round that the transport delivers is one completion for `1.1.1.1`
and one for `::1`; the handler drops the second, `::1` not being a key, and the
`Icmp` slot of `0:0:0:0:0:0:0:1` still holds latency 0 and "Connection timed
out". -/
theorem round_dropped_rendering :
    (∃ e ∈ nodeElems nodeL, skipAddress (some e) = false ∧ e.IP = "0:0:0:0:0:0:0:1") ∧
    "0:0:0:0:0:0:0:1" ∈ registryL.map Prod.fst ∧
    resolve sampleNet6 "0:0:0:0:0:0:0:1" = some "::1" ∧
    ((setNodes sampleNet6 (RangeOrder.inOrder _) (RangeOrder.inOrder _) emptyProber
        registryL).bind
      (fun p1 => (deliver p1 [("1.1.1.1", 2000000), ("::1", 3000000)]).bind
        (fun p2 => (mapGet p2.results "0:0:0:0:0:0:0:1").bind PathStatus.Icmp))) =
      some ⟨0, "Connection timed out"⟩ := by
  refine ⟨⟨⟨"0:0:0:0:0:0:0:1", true, 23⟩, by decide, by decide, rfl⟩, by decide, by decide,
    by decide⟩

/-- Claim C6 fails as stated: in the registry that holds node C under its primary
address 1.1.1.1, the secondary address 10.0.0.2 is enabled and resolvable;
after `setNodes` and one completion for each of the two probed addresses the
handler has dropped the completion of 10.0.0.2, because 10.0.0.2 is not a key of
the registry, and the `Icmp` slot of 10.0.0.2 still holds latency 0 and
"Connection timed out". -/
theorem round_dropped_completion :
    (∃ e ∈ nodeElems nodeC, skipAddress (some e) = false ∧ e.IP = "10.0.0.2") ∧
    resolve sampleNet "10.0.0.2" = some "10.0.0.2" ∧
    ((setNodes sampleNet (RangeOrder.inOrder _) (RangeOrder.inOrder _) emptyProber
        [("1.1.1.1", nodeC)]).bind
      (fun p1 => (deliver p1 [("1.1.1.1", 2000000), ("10.0.0.2", 3000000)]).bind
        (fun p2 => (mapGet p2.results "10.0.0.2").bind PathStatus.Icmp))) =
      some ⟨0, "Connection timed out"⟩ := by
  refine ⟨⟨⟨"10.0.0.2", true, 8⟩, by decide, by decide, rfl⟩, by decide, by decide⟩

/-! ## The theorems at sample inputs -/

theorem probed_sample (a : String) :
    IsProbedAddr sampleNet [("1.1.1.1", nodeA)] a ↔ a = "1.1.1.1" := by
  constructor
  · rintro ⟨⟨kv, hkv, e, he, hskip, hip⟩, -⟩
    simp only [List.mem_singleton] at hkv
    subst hkv
    simp only [nodeElems, nodeA, List.filterMap_cons, id, List.filterMap_nil,
      List.mem_cons, List.mem_singleton, List.not_mem_nil, or_false] at he
    rcases he with rfl | rfl
    · exact hip.symm
    · simp [skipAddress] at hskip
  · rintro rfl
    exact ⟨⟨("1.1.1.1", nodeA), by simp, ⟨"1.1.1.1", true, 1⟩, by decide, by decide, rfl⟩,
      by decide⟩

theorem getResults_one_per_name_witness :
    (∀ kv ∈ stateDup.nodes, noNilDeref kv.2 = true) ∧
    ∃ out, getResults stateDup (RangeOrder.inOrder _) (RangeOrder.backwards _) = some out ∧
      ∀ name, (out.map NodeStatus.Name).count name =
        if name ∈ stateDup.nodes.map (fun kv => kv.2.Name) then 1 else 0 :=
  ⟨by decide, getResults_one_per_name stateDup _ _ (by decide)⟩

theorem setNodes_resolution_fails_witness :
    ∃ p1, setNodes sampleNet (RangeOrder.inOrder _) (RangeOrder.inOrder _) stateA
        [("not-an-ip", nodeB)] = some p1 ∧
      (∃ st, mapGet p1.results "not-an-ip" = some st ∧
        st.Icmp = some ⟨0, "Failed to resolve IP"⟩) ∧
      ∃ added, p1.Pinger.addrs = stateA.Pinger.addrs ++ added ∧
        ∀ ra ∈ added, ∃ kv2 ∈ [("not-an-ip", nodeB)], ∃ e2 ∈ nodeElems kv2.2,
          skipAddress (some e2) = false ∧ e2.IP ≠ "not-an-ip" ∧
            resolve sampleNet e2.IP = some ra :=
  setNodes_resolution_fails sampleNet _ _ stateA [("not-an-ip", nodeB)] (by decide)
    ("not-an-ip", nodeB) (by decide) ⟨"not-an-ip", true, 3⟩ (by decide) (by decide)
    (by decide)

theorem setNodes_resolution_succeeds_witness :
    ∃ p1, setNodes sampleNet (RangeOrder.inOrder _) (RangeOrder.inOrder _)
        (stateARecv 2000000) [("1.1.1.1", nodeA)] = some p1 ∧
      (∃ added, p1.Pinger.addrs = (stateARecv 2000000).Pinger.addrs ++ added ∧
        "1.1.1.1" ∈ added) ∧
      ∃ st, mapGet p1.results "1.1.1.1" = some st ∧
        st.Icmp = some ⟨0, "Connection timed out"⟩ :=
  setNodes_resolution_succeeds sampleNet _ _ (stateARecv 2000000) [("1.1.1.1", nodeA)]
    (by decide) ("1.1.1.1", nodeA) (by decide) ⟨"1.1.1.1", true, 1⟩ (by decide) (by decide)
    "1.1.1.1" (by decide)

theorem OnRecv_writes_latency_witness :
    ∃ p1, OnRecv stateA "1.1.1.1" 2000000 = some p1 ∧
      mapGet p1.results "1.1.1.1" =
        some { IP := "1.1.1.1", Icmp := some ⟨2000000, ""⟩ } ∧
      (∀ ip, ip ≠ "1.1.1.1" → mapGet p1.results ip = mapGet stateA.results ip) ∧
      p1.nodes = stateA.nodes ∧ p1.Pinger = stateA.Pinger :=
  OnRecv_writes_latency stateA "1.1.1.1" 2000000 nodeA
    { IP := "1.1.1.1", Icmp := some ⟨0, "Connection timed out"⟩ } (by decide) (by decide)

theorem OnRecv_unknown_address_witness :
    "10.0.0.2" ∉ stateA.nodes.map Prod.fst ∧ OnRecv stateA "10.0.0.2" 5 = some stateA :=
  ⟨by decide, OnRecv_unknown_address stateA "10.0.0.2" 5 (by decide)⟩

theorem sampleNet_renders (a ra : String) (h : resolve sampleNet a = some ra) : ra = a := by
  unfold resolve sampleNet at h
  simp only at h
  split at h
  · exact (Option.some.inj h).symm
  · simp at h

theorem registered_sample (ra : String) :
    IsRegisteredAddr sampleNet [("1.1.1.1", nodeA)] ra ↔ ra = "1.1.1.1" := by
  rw [registered_iff_probed sampleNet _ (fun a r _ hr => sampleNet_renders a r hr) ra]
  exact probed_sample ra

theorem round_sets_latency_witness :
    ∃ p1 p2, setNodes sampleNet (RangeOrder.inOrder _) (RangeOrder.inOrder _) emptyProber
        [("1.1.1.1", nodeA)] = some p1 ∧
      deliver p1 [("1.1.1.1", 2000000)] = some p2 ∧
      ∀ a, IsProbedAddr sampleNet [("1.1.1.1", nodeA)] a →
        ∃ rtt st, (a, rtt) ∈ [(("1.1.1.1" : String), (2000000 : Int))] ∧
          mapGet p2.results a = some st ∧ st.Icmp = some ⟨rtt, ""⟩ :=
  round_sets_latency sampleNet _ _ emptyProber [("1.1.1.1", nodeA)] [("1.1.1.1", 2000000)]
    (by decide)
    (fun a ha => by rw [(probed_sample a).mp ha]; decide)
    (fun a ra _ hres => sampleNet_renders a ra hres)
    (fun c hc => by
      simp only [List.mem_singleton] at hc
      subst hc
      exact (registered_sample _).mpr rfl)
    (fun ra hra => by rw [(registered_sample ra).mp hra]; decide)
    (by decide)

theorem getResults_secondary_witness :
    getResults stateC (RangeOrder.inOrder _) (RangeOrder.inOrder _) = some [statusC] ∧
    ∃ kv ∈ stateC.nodes, kv.2.Name = statusC.Name ∧
      (∀ s ∈ kv.2.SecondaryAddresses, s ≠ none) ∧
      statusC.Host.SecondaryAddresses =
        (enabledSecondaries kv.2).map (fun a => copyResultRLocked stateC a.IP) :=
  ⟨by decide, getResults_secondary stateC (RangeOrder.inOrder _) (RangeOrder.inOrder _)
    [statusC] (by decide) statusC (by decide)⟩

theorem reachable_icmp_exactlyOne_witness :
    Reachable sampleNet (fun rtt => 0 < rtt) (stateARecv 2000000) ∧
    icmpExactlyOne (stateARecv 2000000) :=
  have hreach : Reachable sampleNet (fun rtt => 0 < rtt) (stateARecv 2000000) :=
    Reachable.recv "1.1.1.1" 2000000 stateA (stateARecv 2000000)
      (Reachable.init (RangeOrder.inOrder _) (RangeOrder.inOrder _)
        [("1.1.1.1", nodeA)] stateA (by decide))
      (by decide) (by decide)
  ⟨hreach, reachable_icmp_exactlyOne sampleNet (stateARecv 2000000) hreach⟩

theorem results_never_removed_witness :
    (Op.setNodes (RangeOrder.inOrder _) (RangeOrder.inOrder _)
        [("not-an-ip", nodeB)]).run sampleNet stateA = some stateAB ∧
    (mapGet stateA.results "1.1.1.1").isSome = true ∧
    (mapGet stateAB.results "1.1.1.1").isSome = true :=
  ⟨by decide, by decide,
    results_never_removed sampleNet stateA stateAB
      (Op.setNodes (RangeOrder.inOrder _) (RangeOrder.inOrder _) [("not-an-ip", nodeB)])
      (by decide) "1.1.1.1" (by decide)⟩

/-! ## Replacement of the registry -/

/-- On a state whose node records hold no nil pointer that `getResults`
dereferences, `getResults` returns, and the names it reports are those of the
records of the registry. -/
theorem getResults_names (p : prober) (ρn : RangeOrder (ipString × NodeElement))
    (ρr : RangeOrder (String × NodeStatus))
    (hnil : ∀ kv ∈ p.nodes, noNilDeref kv.2 = true) :
    ∃ out, getResults p ρn ρr = some out ∧
      ∀ name, name ∈ out.map NodeStatus.Name ↔
        name ∈ p.nodes.map (fun kv => kv.2.Name) := by
  obtain ⟨m, hm⟩ := getResults_fold_some p (ρn.pick p.nodes) []
    (fun kv hkv => hnil kv ((ρn.perm _).mem_iff.mp hkv))
  have hm2 : getResultsMap p ρn = some m := hm
  refine ⟨(ρr.pick m).map Prod.snd, by simp [getResults, hm2], ?_⟩
  intro name
  obtain ⟨-, h2, -⟩ := getResultsMap_spec p ρn m hm2
  have hperm : (((ρr.pick m).map Prod.snd).map NodeStatus.Name).Perm (m.map Prod.fst) := by
    rw [← getResultsMap_names p ρn m hm2, List.map_map]
    exact (ρr.perm m).map _
  rw [hperm.mem_iff, h2 name]
  simp

/-- Claim C11: for every prior state and every node set `nodes` whose records
hold no nil pointer that `setNodes` or `getResults` dereferences, `setNodes`
completes; afterwards `getNodes` returns exactly `nodes`, `getResults` (in any
enumeration order) reports exactly the names of the records of `nodes`, so
that a node of the earlier registry only is not reported, and every address
that had a store entry before still has one. -/
theorem setNodes_replaces_registry (env : Net) (ρn : RangeOrder (ipString × NodeElement))
    (ρa : RangeOrder (Option NodeAddressingElement × Bool)) (p : prober) (nodes : nodeMap)
    (ρn2 : RangeOrder (ipString × NodeElement)) (ρr : RangeOrder (String × NodeStatus))
    (hnil : ∀ kv ∈ nodes, primariesSet kv.2 = true ∧ noNilDeref kv.2 = true) :
    ∃ p1, setNodes env ρn ρa p nodes = some p1 ∧ getNodes p1 = nodes ∧
      (∃ out, getResults p1 ρn2 ρr = some out ∧
        ∀ name, name ∈ out.map NodeStatus.Name ↔
          name ∈ nodes.map (fun kv => kv.2.Name)) ∧
      ∀ a, (mapGet p.results a).isSome = true → (mapGet p1.results a).isSome = true := by
  obtain ⟨p1, h1⟩ := setNodes_some env ρn ρa p nodes (fun kv hkv => (hnil kv hkv).1)
  have hnodes : p1.nodes = nodes := setNodes_nodes env ρn ρa p p1 nodes h1
  refine ⟨p1, h1, hnodes, ?_, fun a ha => setNodes_keeps_entries env ρn ρa p p1 nodes h1 a ha⟩
  obtain ⟨out, hout, hnames⟩ := getResults_names p1 ρn2 ρr
    (fun kv hkv => (hnil kv (hnodes ▸ hkv)).2)
  exact ⟨out, hout, fun name => by rw [hnames name, hnodes]⟩

/-! ## The copy of a path status -/

/-- Claim C12: `copyResultRLocked p ip` is nil exactly when the store has no
entry for `ip`; otherwise it is the stored entry with its `IP` field set to `ip`,
so each of the five slots is absent exactly when the stored slot is absent and
otherwise holds the stored value. The function returns a value only: the
store is not changed. -/
theorem copyResultRLocked_spec (p : prober) (ip : String) :
    (copyResultRLocked p ip = none ↔ mapGet p.results ip = none) ∧
    copyResultRLocked p ip =
      (mapGet p.results ip).map (fun status =>
        { IP := ip
          Icmp := status.Icmp
          HTTP := status.HTTP
          HTTPViaL7 := status.HTTPViaL7
          HTTPViaService := status.HTTPViaService
          HTTPViaServiceL7 := status.HTTPViaServiceL7 }) := by
  have hslot : ∀ v, copySlot v = v := by
    intro v
    cases v <;> rfl
  unfold copyResultRLocked
  cases mapGet p.results ip with
  | none => simp
  | some status => simp [hslot]

/-! ## Repeatability of `getResults` -/

theorem getResults_fold_some_of_status (p : prober) (L : List (ipString × NodeElement))
    (m : List (String × NodeStatus))
    (h : ∀ kv ∈ L, (nodeStatus p kv.2).isSome = true) :
    ∃ m1, L.foldlM (fun r kv => getResultsStep p r kv.2) m = some m1 := by
  apply foldlM_some
  intro kv hkv b
  obtain ⟨st, hst⟩ := Option.isSome_iff_exists.mp (h kv hkv)
  unfold getResultsStep
  cases mapGet b kv.2.Name <;> simp [hst]

/-- Two result maps built from the same state, in whatever orders, hold the
same entries when records that share a name are the same record. -/
theorem resultMap_perm (p : prober) (hnames : namesDetermineRecords p.nodes)
    (ρn ρn2 : RangeOrder (ipString × NodeElement)) (m m2 : List (String × NodeStatus))
    (hm : getResultsMap p ρn = some m) (hm2 : getResultsMap p ρn2 = some m2) :
    m.Perm m2 := by
  have key : ∀ (ρ1 ρ2 : RangeOrder (ipString × NodeElement))
      (a b : List (String × NodeStatus)),
      getResultsMap p ρ1 = some a → getResultsMap p ρ2 = some b → ∀ e ∈ a, e ∈ b := by
    intro ρ1 ρ2 a b ha hb e he
    obtain ⟨-, a2, a3⟩ := getResultsMap_spec p ρ1 a ha
    obtain ⟨-, b2, b3⟩ := getResultsMap_spec p ρ2 b hb
    obtain ⟨kv, hkv, hk1, hk2⟩ := a3 e he
    have hin : e.1 ∈ b.map Prod.fst := (b2 e.1).mpr ⟨kv, hkv, hk1.symm⟩
    obtain ⟨e2, he2, hfst⟩ := List.mem_map.mp hin
    obtain ⟨kv2, hkv2, hk3, hk4⟩ := b3 e2 he2
    have hrec : kv.2 = kv2.2 := hnames kv hkv kv2 hkv2 (by rw [← hk1, ← hk3, hfst])
    have hsnd : e2.2 = e.2 := by
      rw [hrec, hk4] at hk2
      exact Option.some.inj hk2
    have : e2 = e := Prod.ext hfst hsnd
    exact this ▸ he2
  have nd1 : m.Nodup := List.Nodup.of_map _ (getResultsMap_spec p ρn m hm).1
  have nd2 : m2.Nodup := List.Nodup.of_map _ (getResultsMap_spec p ρn2 m2 hm2).1
  exact (List.perm_ext_iff_of_nodup nd1 nd2).mpr
    (fun e => ⟨key ρn ρn2 m m2 hm hm2 e, key ρn2 ρn m2 m hm2 hm e⟩)

/-- Claim C13, as amended: `getResults` returns a value only (registry and store
are not changed), and for every state in which records of the registry that
share a name are the same record, whenever one call of `getResults` returns a
snapshot, any other call on the same state, in whatever enumeration orders,
returns too, and returns the same collection of `NodeStatus` values. -/
theorem getResults_repeatable (p : prober) (ρn ρn2 : RangeOrder (ipString × NodeElement))
    (ρr ρr2 : RangeOrder (String × NodeStatus)) (out : List NodeStatus)
    (hnames : namesDetermineRecords p.nodes)
    (h : getResults p ρn ρr = some out) :
    ∃ out2, getResults p ρn2 ρr2 = some out2 ∧ out2.Perm out := by
  unfold getResults at h
  cases hm : getResultsMap p ρn with
  | none => simp [hm] at h
  | some m =>
    simp only [hm, Option.some.injEq] at h
    subst h
    obtain ⟨-, a2, a3⟩ := getResultsMap_spec p ρn m hm
    have hstatus : ∀ kv ∈ ρn2.pick p.nodes, (nodeStatus p kv.2).isSome = true := by
      intro kv hkv
      have hkv1 : kv ∈ p.nodes := (ρn2.perm _).mem_iff.mp hkv
      have hin : kv.2.Name ∈ m.map Prod.fst := (a2 kv.2.Name).mpr ⟨kv, hkv1, rfl⟩
      obtain ⟨e, he, hfst⟩ := List.mem_map.mp hin
      obtain ⟨kv0, hkv0, hk1, hk2⟩ := a3 e he
      have hrec : kv0.2 = kv.2 := hnames kv0 hkv0 kv hkv1 (by rw [← hk1, hfst])
      rw [← hrec, hk2]
      rfl
    obtain ⟨m2, hm2⟩ := getResults_fold_some_of_status p (ρn2.pick p.nodes) [] hstatus
    have hm3 : getResultsMap p ρn2 = some m2 := hm2
    refine ⟨(ρr2.pick m2).map Prod.snd, by simp [getResults, hm3], ?_⟩
    have hperm : m2.Perm m := resultMap_perm p hnames ρn2 ρn m2 m hm3 hm
    exact (((ρr2.perm m2).trans hperm).trans (ρr.perm m).symm).map Prod.snd

/-- Claim C13 fails as stated: in `stateDup` two registry keys map to different
records named A, and the store has an entry for the primary address of the
first only. A call that enumerates the registry forwards reports A with the
status of 1.1.1.1, a call that enumerates it backwards reports A without a
primary status: the two snapshots are not the same collection. -/
theorem getResults_differs_on_shared_name :
    getResults stateDup (RangeOrder.inOrder _) (RangeOrder.inOrder _) =
      some [statusDupFirst] ∧
    getResults stateDup (RangeOrder.backwards _) (RangeOrder.inOrder _) =
      some [statusDupSecond] ∧
    ¬ [statusDupFirst].Perm [statusDupSecond] := by
  refine ⟨by decide, by decide, ?_⟩
  rw [List.singleton_perm_singleton]
  decide

theorem getResults_repeatable_witness :
    getResults stateTwo (RangeOrder.inOrder _) (RangeOrder.inOrder _) = some snapshotTwo ∧
    ∃ out2, getResults stateTwo (RangeOrder.backwards _) (RangeOrder.backwards _) =
      some out2 ∧ out2.Perm snapshotTwo :=
  ⟨by decide,
    getResults_repeatable stateTwo (RangeOrder.inOrder _) (RangeOrder.backwards _)
      (RangeOrder.inOrder _) (RangeOrder.backwards _) snapshotTwo
      (by unfold namesDetermineRecords; decide) (by decide)⟩

/-! ## Frame properties of the result store -/

/-- The entry `y` of an address after some steps relates to its entry `x` before
them: an entry that existed keeps its four slots other than `Icmp`, and an entry
that did not exist has them absent if it exists now. -/
theorem otherSlots_step (x y z : Option PathStatus) (c : ConnectivityStatus) (a : String)
    (hxy : (∀ st, x = some st → ∃ st1, y = some st1 ∧ otherSlots st1 = otherSlots st) ∧
      (x = none → ∀ st1, y = some st1 → otherSlots st1 = (none, none, none, none)))
    (hz : z = y ∨ z = some { y.getD { IP := a } with Icmp := some c }) :
    (∀ st, x = some st → ∃ st1, z = some st1 ∧ otherSlots st1 = otherSlots st) ∧
      (x = none → ∀ st1, z = some st1 → otherSlots st1 = (none, none, none, none)) := by
  rcases hz with rfl | rfl
  · exact hxy
  · obtain ⟨h1, h2⟩ := hxy
    constructor
    · intro st hst
      obtain ⟨st1, hy, ho⟩ := h1 st hst
      exact ⟨_, rfl, by rw [hy]; exact ho⟩
    · intro hx st1 hst1
      simp only [Option.some.injEq] at hst1
      subst hst1
      cases hy : y with
      | none => rfl
      | some st0 => exact h2 hx st0 hy

theorem setNodes_otherSlots (env : Net) (ρn : RangeOrder (ipString × NodeElement))
    (ρa : RangeOrder (Option NodeAddressingElement × Bool)) (p p1 : prober)
    (nodes : nodeMap) (h : setNodes env ρn ρa p nodes = some p1) (a : String) :
    (∀ st, mapGet p.results a = some st →
      ∃ st1, mapGet p1.results a = some st1 ∧ otherSlots st1 = otherSlots st) ∧
    (mapGet p.results a = none →
      ∀ st1, mapGet p1.results a = some st1 → otherSlots st1 = (none, none, none, none)) := by
  refine setNodes_inv env ρn ρa p p1 nodes
    (fun b => (∀ st, mapGet p.results a = some st →
        ∃ st1, mapGet b.results a = some st1 ∧ otherSlots st1 = otherSlots st) ∧
      (mapGet p.results a = none →
        ∀ st1, mapGet b.results a = some st1 → otherSlots st1 = (none, none, none, none)))
    ?_ h ⟨fun st hst => ⟨st, hst, rfl⟩, fun hx st1 hst1 => by simp [hx] at hst1⟩
  intro kv _ addresses _ entry _ b b1 hb hI
  refine otherSlots_step _ _ _ (provisional env a) a hI ?_
  rcases setNodesElem_results env b b1 entry hb a with h3 | ⟨e2, -, -, -, h3⟩
  · exact Or.inl h3
  · exact Or.inr h3

/-- Claim C14: for every state and every operation that returns (a `setNodes`
call or a completion) and every address, an entry that existed before the
operation exists after it with its four slots `HTTP`, `HTTPViaL7`,
`HTTPViaService` and `HTTPViaServiceL7` unchanged, and an entry that did not exist
before and exists after has all four of them absent. -/
theorem only_icmp_written (env : Net) (p p1 : prober) (op : Op)
    (h : op.run env p = some p1) (a : String) :
    (∀ st, mapGet p.results a = some st →
      ∃ st1, mapGet p1.results a = some st1 ∧ otherSlots st1 = otherSlots st) ∧
    (mapGet p.results a = none →
      ∀ st1, mapGet p1.results a = some st1 → otherSlots st1 = (none, none, none, none)) := by
  cases op with
  | setNodes ρn ρa nodes => exact setNodes_otherSlots env ρn ρa p p1 nodes h a
  | recv addr rtt =>
    have hrefl : (∀ st, mapGet p.results a = some st →
        ∃ st1, mapGet p.results a = some st1 ∧ otherSlots st1 = otherSlots st) ∧
      (mapGet p.results a = none →
        ∀ st1, mapGet p.results a = some st1 → otherSlots st1 = (none, none, none, none)) :=
      ⟨fun st hst => ⟨st, hst, rfl⟩, fun hx st1 hst1 => by simp [hx] at hst1⟩
    rcases OnRecv_spec p p1 addr rtt h with rfl | ⟨st0, hst0, rfl⟩
    · exact hrefl
    · refine otherSlots_step _ _ _ ⟨rtt, ""⟩ a hrefl ?_
      simp only [mapGet_mapSet]
      by_cases hadd : addr = a
      · subst hadd
        right
        simp [hst0]
      · left
        simp [hadd]

/-- Claim C15: for every state and node set on which `setNodes` returns, the
store entry of every address string that is not the address of an enabled,
non-"<nil>" element of a node of the new set is exactly as before (present
or absent, same `IP`, same five slots), and every address that the call
registers with the transport is the resolution of such an enabled address;
disabled addresses are neither registered nor given a status. -/
theorem setNodes_frame (env : Net) (ρn : RangeOrder (ipString × NodeElement))
    (ρa : RangeOrder (Option NodeAddressingElement × Bool)) (p p1 : prober)
    (nodes : nodeMap) (h : setNodes env ρn ρa p nodes = some p1) :
    (∀ a, ¬ IsEnabledAddr nodes a → mapGet p1.results a = mapGet p.results a) ∧
    ∃ added, p1.Pinger.addrs = p.Pinger.addrs ++ added ∧
      ∀ ra ∈ added, ∃ a, IsEnabledAddr nodes a ∧ resolve env a = some ra := by
  constructor
  · intro a ha
    refine setNodes_inv env ρn ρa p p1 nodes
      (fun b => mapGet b.results a = mapGet p.results a) ?_ h rfl
    intro kv hkv addresses haddr entry hentry b b1 hb hI
    rcases setNodesElem_results env b b1 entry hb a with h3 | ⟨e, h4, h5, h6, -⟩
    · rw [h3, hI]
    · exfalso
      apply ha
      have hmem : e ∈ nodeElems kv.2 :=
        (getNodeAddresses_mem kv.2 addresses haddr e).mp
          ⟨entry.2, by rw [← h4]; exact hentry⟩
      exact ⟨kv, hkv, e, hmem, h5, h6⟩
  · obtain ⟨added, h1, h2⟩ := setNodes_addrs env ρn ρa p p1 nodes h
    refine ⟨added, h1, ?_⟩
    intro ra hra
    obtain ⟨kv, hkv, e, he, hskip, hres⟩ := h2 ra hra
    exact ⟨e.IP, ⟨kv, hkv, e, he, hskip, rfl⟩, hres⟩

theorem only_icmp_written_witness :
    (Op.recv "1.1.1.1" 2000000).run sampleNet stateA = some (stateARecv 2000000) ∧
    (∀ st, mapGet stateA.results "1.1.1.1" = some st →
      ∃ st1, mapGet (stateARecv 2000000).results "1.1.1.1" = some st1 ∧
        otherSlots st1 = otherSlots st) ∧
    (mapGet stateA.results "1.1.1.1" = none →
      ∀ st1, mapGet (stateARecv 2000000).results "1.1.1.1" = some st1 →
        otherSlots st1 = (none, none, none, none)) :=
  ⟨by decide,
    only_icmp_written sampleNet stateA (stateARecv 2000000) (Op.recv "1.1.1.1" 2000000)
      (by decide) "1.1.1.1"⟩

theorem setNodes_frame_witness :
    setNodes sampleNet (RangeOrder.inOrder _) (RangeOrder.inOrder _) stateA
      [("not-an-ip", nodeB)] = some stateAB ∧
    (∀ a, ¬ IsEnabledAddr [("not-an-ip", nodeB)] a →
      mapGet stateAB.results a = mapGet stateA.results a) ∧
    ∃ added, stateAB.Pinger.addrs = stateA.Pinger.addrs ++ added ∧
      ∀ ra ∈ added, ∃ a, IsEnabledAddr [("not-an-ip", nodeB)] a ∧
        resolve sampleNet a = some ra :=
  ⟨by decide,
    setNodes_frame sampleNet (RangeOrder.inOrder _) (RangeOrder.inOrder _) stateA stateAB
      [("not-an-ip", nodeB)] (by decide)⟩

/-! ## The store write of the completion handler -/

theorem setNodesElem_registered (env : Net)
    (hres : ∀ ip ra, resolve env ip = some ra → ra = ip) (p p1 : prober)
    (entry : Option NodeAddressingElement × Bool)
    (h : setNodesElem env p entry = some p1)
    (hp : ∀ ra ∈ p.Pinger.addrs, (mapGet p.results ra).isSome = true) :
    ∀ ra ∈ p1.Pinger.addrs, (mapGet p1.results ra).isSome = true := by
  obtain ⟨elem, primary⟩ := entry
  cases hs : skipAddress elem with
  | true =>
    rw [setNodesElem_skip env p _ hs] at h
    simp at h
    subst h
    exact hp
  | false =>
    cases elem with
    | none => simp [skipAddress] at hs
    | some e =>
      obtain ⟨p2, h1, -, h3, h4⟩ := setNodesElem_spec env p e primary hs
      rw [h1] at h
      simp at h
      subst h
      intro ra hra
      rw [h4 ra]
      by_cases hip : e.IP = ra
      · simp [hip]
      · rw [if_neg hip]
        rw [h3] at hra
        rcases List.mem_append.mp hra with hold | hnew
        · exact hp ra hold
        · exfalso
          cases hr : resolve env e.IP with
          | none => simp [hr] at hnew
          | some ra2 =>
            simp [hr] at hnew
            subst hnew
            exact hip (hres e.IP ra hr).symm

/-- When resolution renders every address string as itself, every address
registered with the transport has a store entry in every reachable state. -/
theorem reachable_registered_has_entry (env : Net) (okRtt : Int → Prop)
    (hres : ∀ ip ra, resolve env ip = some ra → ra = ip) (p : prober)
    (h : Reachable env okRtt p) :
    ∀ ra ∈ p.Pinger.addrs, (mapGet p.results ra).isSome = true := by
  have hset : ∀ (ρn : RangeOrder (ipString × NodeElement))
      (ρa : RangeOrder (Option NodeAddressingElement × Bool)) (q q1 : prober)
      (nodes : nodeMap), setNodes env ρn ρa q nodes = some q1 →
      (∀ ra ∈ q.Pinger.addrs, (mapGet q.results ra).isSome = true) →
      ∀ ra ∈ q1.Pinger.addrs, (mapGet q1.results ra).isSome = true := by
    intro ρn ρa q q1 nodes hq hI
    exact setNodes_inv env ρn ρa q q1 nodes
      (fun b => ∀ ra ∈ b.Pinger.addrs, (mapGet b.results ra).isSome = true)
      (fun _ _ _ _ entry _ b b1 hb hb0 => setNodesElem_registered env hres b b1 entry hb hb0)
      hq hI
  induction h with
  | init ρn ρa nodes p hnew =>
    refine hset ρn ρa _ p nodes hnew ?_
    intro ra hra
    simp at hra
  | setNodes ρn ρa nodes p p1 _ hs ih => exact hset ρn ρa p p1 nodes hs ih
  | recv addr rtt p p1 _ _ hrecv ih =>
    intro ra hra
    have haddrs : p1.Pinger.addrs = p.Pinger.addrs := by
      rcases OnRecv_spec p p1 addr rtt hrecv with rfl | ⟨st, -, rfl⟩ <;> rfl
    rw [haddrs] at hra
    exact OnRecv_keeps_entries p p1 addr rtt hrecv ra (ih ra hra)

/-- Claim C17 fails on the code: with a resolver that renders `0:0:0:0:0:0:0:1`
as `::1`, `newProber` on `registryE` returns `stateE`, in which `::1` is
registered with the transport and is a key of the registry but has no store
entry (the entry made for the probed address is under the string
`0:0:0:0:0:0:0:1`, and the address `::1` itself is disabled); the completion
of `::1` then panics on the write to `results[address].Icmp`. -/
theorem OnRecv_panics_on_missing_entry :
    newProber sampleNet6 (RangeOrder.inOrder _) (RangeOrder.inOrder _) registryE =
      some stateE ∧
    "::1" ∈ stateE.Pinger.addrs ∧
    (mapGet stateE.nodes "::1").isSome = true ∧
    mapGet stateE.results "::1" = none ∧
    OnRecv stateE "::1" 2000000 = none := by
  refine ⟨by decide, by decide, by decide, by decide, by decide⟩

/-! ## Aggregation: the primary address -/

theorem getPrimaryIP_spec (node : NodeElement) (ip : String)
    (h : getPrimaryIP node = some ip) :
    ∃ v4, node.PrimaryAddress.IPV4 = some v4 ∧
      ((v4.Enabled = true ∧ ip = v4.IP) ∨
        (v4.Enabled = false ∧ ∃ v6, node.PrimaryAddress.IPV6 = some v6 ∧ ip = v6.IP)) := by
  unfold getPrimaryIP at h
  cases h4 : node.PrimaryAddress.IPV4 with
  | none => simp [h4] at h
  | some v4 =>
    refine ⟨v4, rfl, ?_⟩
    simp only [h4] at h
    by_cases hen : v4.Enabled = true
    · simp [hen] at h
      exact Or.inl ⟨hen, h.symm⟩
    · simp [hen] at h
      cases h6 : node.PrimaryAddress.IPV6 with
      | none => simp [h6] at h
      | some v6 =>
        simp [h6] at h
        exact Or.inr ⟨by simpa using hen, v6, rfl, h.symm⟩

theorem nodeStatus_primary (p : prober) (node : NodeElement) (st : NodeStatus)
    (h : nodeStatus p node = some st) :
    ∃ ip, getPrimaryIP node = some ip ∧
      st.Host.PrimaryAddress = copyResultRLocked p ip := by
  unfold nodeStatus at h
  split at h
  · simp at h
  · rename_i ip hip
    split at h
    · simp at h
    · simp at h
      exact ⟨ip, hip, by simp [← h]⟩

/-- Claim C18: for every `NodeStatus` in a result of `getResults` there is a node
record of the registry with its name such that the primary-address status is
`copyResultRLocked` of the store at `getPrimaryIP` of the record, and that address
is the IP of the primary IPv4 element when that element is enabled and the IP
of the primary IPv6 element otherwise, whether or not the IPv6 element is
enabled. -/
theorem getResults_primary (p : prober) (ρn : RangeOrder (ipString × NodeElement))
    (ρr : RangeOrder (String × NodeStatus)) (out : List NodeStatus)
    (h : getResults p ρn ρr = some out) (st : NodeStatus) (hst : st ∈ out) :
    ∃ kv ∈ p.nodes, kv.2.Name = st.Name ∧
      ∃ ip, getPrimaryIP kv.2 = some ip ∧
        st.Host.PrimaryAddress = copyResultRLocked p ip ∧
        ∃ v4, kv.2.PrimaryAddress.IPV4 = some v4 ∧
          ((v4.Enabled = true ∧ ip = v4.IP) ∨
            (v4.Enabled = false ∧
              ∃ v6, kv.2.PrimaryAddress.IPV6 = some v6 ∧ ip = v6.IP)) := by
  unfold getResults at h
  cases hm : getResultsMap p ρn with
  | none => simp [hm] at h
  | some m =>
    simp only [hm, Option.some.injEq] at h
    subst h
    obtain ⟨e, he, rfl⟩ := List.mem_map.mp hst
    have he2 : e ∈ m := (ρr.perm m).mem_iff.mp he
    obtain ⟨kv, hkv, -, h2⟩ := (getResultsMap_spec p ρn m hm).2.2 e he2
    obtain ⟨ip, hip, hprim⟩ := nodeStatus_primary p kv.2 e.2 h2
    exact ⟨kv, hkv, (nodeStatus_name p kv.2 e.2 h2).symm, ip, hip, hprim,
      getPrimaryIP_spec kv.2 ip hip⟩

theorem getResults_primary_witness :
    getResults stateF (RangeOrder.inOrder _) (RangeOrder.inOrder _) = some [statusF] ∧
    ∃ kv ∈ stateF.nodes, kv.2.Name = statusF.Name ∧
      ∃ ip, getPrimaryIP kv.2 = some ip ∧
        statusF.Host.PrimaryAddress = copyResultRLocked stateF ip ∧
        ∃ v4, kv.2.PrimaryAddress.IPV4 = some v4 ∧
          ((v4.Enabled = true ∧ ip = v4.IP) ∨
            (v4.Enabled = false ∧
              ∃ v6, kv.2.PrimaryAddress.IPV6 = some v6 ∧ ip = v6.IP)) :=
  ⟨by decide,
    getResults_primary stateF (RangeOrder.inOrder _) (RangeOrder.inOrder _) [statusF]
      (by decide) statusF (by decide)⟩

/-! ## The addresses of a node -/

/-- Claim C19, as amended: for every node whose two primary address pointers are
set, `getNodeAddresses` returns a map whose keys are exactly the primary IPv4
pointer, the primary IPv6 pointer (enabled or not) and every secondary
pointer, one entry per pointer; each secondary pointer is tagged non-primary
regardless of its own enabled flag, and a primary pointer that is not also
held by a secondary slot is tagged with its own enabled flag (primary exactly
when enabled). A primary pointer that a secondary slot holds too falls under
the secondary rule and is tagged non-primary. -/
theorem getNodeAddresses_spec (node : NodeElement) (v4 v6 : NodeAddressingElement)
    (h4 : node.PrimaryAddress.IPV4 = some v4) (h6 : node.PrimaryAddress.IPV6 = some v6) :
    ∃ addresses, getNodeAddresses node = some addresses ∧
      (addresses.map Prod.fst).Nodup ∧
      (∀ k, k ∈ addresses.map Prod.fst ↔
        k = some v4 ∨ k = some v6 ∨ k ∈ node.SecondaryAddresses) ∧
      (∀ s ∈ node.SecondaryAddresses, mapGet addresses s = some false) ∧
      (some v4 ∉ node.SecondaryAddresses → mapGet addresses (some v4) = some v4.Enabled) ∧
      (some v6 ∉ node.SecondaryAddresses → mapGet addresses (some v6) = some v6.Enabled) := by
  have hget := getNodeAddresses_eq node v4 v6 h4 h6
  obtain ⟨hnd, hkeys⟩ := getNodeAddresses_keys node _ hget
  refine ⟨_, hget, hnd, ?_, ?_, ?_, ?_⟩
  · intro k
    rw [hkeys k, h4, h6]
  · intro s hs
    rw [foldl_mapSet_get, if_pos hs]
  · intro hnot
    rw [foldl_mapSet_get, if_neg hnot, mapGet_mapSet, mapGet_mapSet]
    by_cases h64 : some v6 = some v4
    · rw [if_pos h64]
      have : v6 = v4 := Option.some.inj h64
      rw [this]
    · rw [if_neg h64, if_pos rfl]
  · intro hnot
    rw [foldl_mapSet_get, if_neg hnot, mapGet_mapSet, if_pos rfl]

/-- Claim C19 fails as stated: the primary IPv6 address of node A is disabled;
it is in the map that `getNodeAddresses` returns for node A, and it is tagged
non-primary there. -/
theorem getNodeAddresses_disabled_primary :
    nodeA.PrimaryAddress.IPV6 = some ⟨"<nil>", false, 2⟩ ∧
    getNodeAddresses nodeA =
      some [(some ⟨"1.1.1.1", true, 1⟩, true), (some ⟨"<nil>", false, 2⟩, false)] := by
  decide

/-- In node G the secondary slot holds the pointer of the enabled primary IPv4
address: the map has two entries, and that pointer is tagged non-primary. -/
theorem getNodeAddresses_shared_pointer :
    getNodeAddresses nodeG =
      some [(some ⟨"1.1.1.1", true, 17⟩, false), (some ⟨"<nil>", false, 18⟩, false)] := by
  decide

/-- In node H the secondary slot holds another element of the same content as
the enabled primary IPv4 address: the map has three entries, and the primary
pointer is tagged primary. -/
theorem getNodeAddresses_equal_content :
    getNodeAddresses nodeH =
      some [(some ⟨"1.1.1.1", true, 19⟩, true), (some ⟨"<nil>", false, 20⟩, false),
        (some ⟨"1.1.1.1", true, 21⟩, false)] := by
  decide

theorem getNodeAddresses_spec_witness :
    ∃ addresses, getNodeAddresses nodeG = some addresses ∧
      (addresses.map Prod.fst).Nodup ∧
      (∀ k, k ∈ addresses.map Prod.fst ↔
        k = some ⟨"1.1.1.1", true, 17⟩ ∨ k = some ⟨"<nil>", false, 18⟩ ∨
          k ∈ nodeG.SecondaryAddresses) ∧
      (∀ s ∈ nodeG.SecondaryAddresses, mapGet addresses s = some false) ∧
      (some ⟨"1.1.1.1", true, 17⟩ ∉ nodeG.SecondaryAddresses →
        mapGet addresses (some ⟨"1.1.1.1", true, 17⟩) = some true) ∧
      (some ⟨"<nil>", false, 18⟩ ∉ nodeG.SecondaryAddresses →
        mapGet addresses (some ⟨"<nil>", false, 18⟩) = some false) :=
  getNodeAddresses_spec nodeG ⟨"1.1.1.1", true, 17⟩ ⟨"<nil>", false, 18⟩
    (by decide) (by decide)

theorem setNodes_replaces_registry_witness :
    ∃ p1, setNodes sampleNet (RangeOrder.inOrder _) (RangeOrder.inOrder _) stateA
        [("not-an-ip", nodeB)] = some p1 ∧ getNodes p1 = [("not-an-ip", nodeB)] ∧
      (∃ out, getResults p1 (RangeOrder.backwards _) (RangeOrder.inOrder _) = some out ∧
        ∀ name, name ∈ out.map NodeStatus.Name ↔
          name ∈ [(("not-an-ip" : String), nodeB)].map (fun kv => kv.2.Name)) ∧
      ∀ a, (mapGet stateA.results a).isSome = true → (mapGet p1.results a).isSome = true :=
  setNodes_replaces_registry sampleNet (RangeOrder.inOrder _) (RangeOrder.inOrder _) stateA
    [("not-an-ip", nodeB)] (RangeOrder.backwards _) (RangeOrder.inOrder _) (by decide)

end Prober
